import Mathlib

/-
  Verification of the polyagent-sim backend core against its specification.

  The development shallowly embeds the Python sources:
    backend/app/services/polymarket_service.py  (market snapshot normalizer)
    backend/app/services/market_analyzer.py     (opportunity scorer and ranking)
    backend/app/main.py                         (rate limiter, markets cache,
                                                 paper-trading ledger endpoints)
    backend/app/schemas.py                      (request validation)

  Machine floats are modelled by rationals (exact arithmetic); Python runtime
  values reaching the normalizer are modelled by the inductive `PyVal` below.
-/

namespace PolyagentSim

/-- Errors a modelled Python expression can raise.  `valueError` also stands
for `json.JSONDecodeError`, which is a `ValueError` subclass in Python. -/
inductive PyErr where
  | valueError
  | typeError
  | indexError
  | keyError
  | zeroDivision
deriving DecidableEq, Repr

/-- Model of the untyped JSON-like values the upstream API delivers.
Python dict values nested inside markets are not needed by any claim and are
not modelled; numbers (int/float) are collapsed into exact rationals. -/
inductive PyVal where
  | none
  | bool (b : Bool)
  | num (q : ℚ)
  | str (s : String)
  | list (xs : List PyVal)
  /-- A string-keyed dict, as `json.loads` produces for a JSON object. -/
  | dict (kvs : List (String × PyVal))
  /-- A nonfinite float (`inf`, `-inf` or `nan`), as `json.loads` produces
  for the tokens `Infinity`, `-Infinity` and `NaN`.  The model's rationals
  cannot carry these values; see the note at `pyFloat`. -/
  | nonfinite

/-- Python `x is None`. -/
def isNone : PyVal → Bool
  | PyVal.none => true
  | _ => false

/-- Python truthiness for the modelled values. -/
def truthy : PyVal → Bool
  | PyVal.none => false
  | PyVal.bool b => b
  | PyVal.num q => decide (q ≠ 0)
  | PyVal.str s => decide (s ≠ "")
  | PyVal.list xs => !xs.isEmpty
  | PyVal.dict kvs => !kvs.isEmpty
  | PyVal.nonfinite => true

/-- Python `a or b`. -/
def pyOr (a b : PyVal) : PyVal := if truthy a then a else b

/-- Digit value of an ASCII digit character. -/
def digitVal (c : Char) : ℕ := c.toNat - 48

def digitsToNat (cs : List Char) : ℕ := cs.foldl (fun n c => 10 * n + digitVal c) 0

def allDigits (cs : List Char) : Bool := cs.all (fun c => c.isDigit)

/-- Consume an optional leading sign. -/
def parseSign : List Char → ℤ × List Char
  | '+' :: cs => (1, cs)
  | '-' :: cs => (-1, cs)
  | cs => (1, cs)

/-- Split a character list at the first dot, if any. -/
def splitDot (cs : List Char) : List Char × Option (List Char) :=
  match cs.span (fun c => c ≠ '.') with
  | (a, []) => (a, Option.none)
  | (a, _ :: b) => (a, Option.some b)

/-- Parse an unsigned decimal mantissa `123`, `1.5`, `.5` or `1.`. -/
def parseMantissa (cs : List Char) : Option ℚ :=
  let (ip, fp) := splitDot cs
  match fp with
  | Option.none =>
      if ip ≠ [] ∧ allDigits ip then Option.some ((digitsToNat ip : ℚ))
      else Option.none
  | Option.some f =>
      if (ip ≠ [] ∨ f ≠ []) ∧ allDigits ip ∧ allDigits f then
        Option.some ((digitsToNat ip : ℚ) + (digitsToNat f : ℚ) / (10 : ℚ) ^ f.length)
      else Option.none

/-- Split at the first exponent marker, if any. -/
def splitExp (cs : List Char) : List Char × Option (List Char) :=
  match cs.span (fun c => c ≠ 'e' ∧ c ≠ 'E') with
  | (a, []) => (a, Option.none)
  | (a, _ :: b) => (a, Option.some b)

def parseExpPart (cs : List Char) : Option ℤ :=
  let (sg, ds) := parseSign cs
  if ds ≠ [] ∧ allDigits ds then Option.some (sg * (digitsToNat ds : ℤ))
  else Option.none

def pow10 (e : ℤ) : ℚ :=
  if 0 ≤ e then ((10 : ℚ) ^ e.toNat) else 1 / ((10 : ℚ) ^ (-e).toNat)

/-- Model of Python `float(s)` on strings: signed decimal numerals with an
optional fraction and exponent.  Python additionally strips whitespace and
accepts `inf`, `nan` and underscore separators; those strings are modelled as
parse failures, which no claim depends on. -/
def parseDecimal (s : String) : Option ℚ :=
  let (sg, cs) := parseSign s.toList
  let (m, e) := splitExp cs
  match parseMantissa m, e with
  | Option.some q, Option.none => Option.some ((sg : ℚ) * q)
  | Option.some q, Option.some ecs =>
      match parseExpPart ecs with
      | Option.some ex => Option.some ((sg : ℚ) * q * pow10 ex)
      | Option.none => Option.none
  | Option.none, _ => Option.none

/-- Model of Python `float(x)`.  `float()` on a dict raises `TypeError`.  On
a nonfinite float it succeeds (identity), but the model has no nonfinite
rational to return; it is collapsed to a `ValueError`, so inside
`parse_outcome_prices` (the only reach of json-decoded values) the model hits
the same caught-and-defaulted outcome as the program's successful nonfinite
parse, and elsewhere the model may raise where the program succeeds — never
the reverse.  Nonfinite values are excluded from every claim hypothesis. -/
def pyFloat : PyVal → Except PyErr ℚ
  | PyVal.num q => Except.ok q
  | PyVal.bool b => Except.ok (if b then 1 else 0)
  | PyVal.str s =>
      match parseDecimal s with
      | Option.some q => Except.ok q
      | Option.none => Except.error PyErr.valueError
  | PyVal.nonfinite => Except.error PyErr.valueError
  | _ => Except.error PyErr.typeError

/-- Truncation of a rational toward zero, as Python `int(float)`. -/
def ratTrunc (q : ℚ) : ℤ := if 0 ≤ q then q.floor else -((-q).floor)

def parseIntStr (s : String) : Option ℤ :=
  let (sg, ds) := parseSign s.toList
  if ds ≠ [] ∧ allDigits ds then Option.some (sg * (digitsToNat ds : ℤ))
  else Option.none

/-- Model of Python `int(x)`.  `int()` on a nonfinite float raises
(`OverflowError`/`ValueError`, collapsed to the latter). -/
def pyInt : PyVal → Except PyErr ℤ
  | PyVal.num q => Except.ok (ratTrunc q)
  | PyVal.bool b => Except.ok (if b then 1 else 0)
  | PyVal.str s =>
      match parseIntStr s with
      | Option.some n => Except.ok n
      | Option.none => Except.error PyErr.valueError
  | PyVal.nonfinite => Except.error PyErr.valueError
  | _ => Except.error PyErr.typeError

/-- Python `len(x)`: defined on strings, lists and dicts; `len` of a float
(including `inf`/`nan`) raises `TypeError`. -/
def pyLen : PyVal → Except PyErr ℕ
  | PyVal.str s => Except.ok s.length
  | PyVal.list xs => Except.ok xs.length
  | PyVal.dict kvs => Except.ok kvs.length
  | _ => Except.error PyErr.typeError

/-- Python `x[i]` for a natural index.  Subscripting a dict looks the index
up as a key: JSON objects are string-keyed, so an integer subscript always
raises `KeyError` (which the `except (ValueError, IndexError,
json.JSONDecodeError)` handler of `parse_outcome_prices` does not catch). -/
def pyIndex : PyVal → ℕ → Except PyErr PyVal
  | PyVal.str s, i =>
      match s.toList.get? i with
      | Option.some c => Except.ok (PyVal.str (String.mk [c]))
      | Option.none => Except.error PyErr.indexError
  | PyVal.list xs, i =>
      match xs.get? i with
      | Option.some v => Except.ok v
      | Option.none => Except.error PyErr.indexError
  | PyVal.dict _, _ => Except.error PyErr.keyError
  | _, _ => Except.error PyErr.typeError

def skipWs : List Char → List Char
  | c :: cs => if c = ' ' ∨ c = '\t' ∨ c = '\n' ∨ c = '\r' then skipWs cs else c :: cs
  | [] => []

def isNumChar (c : Char) : Bool :=
  c.isDigit ∨ c = '-' ∨ c = '+' ∨ c = '.' ∨ c = 'e' ∨ c = 'E'

def isHexDigitCh (c : Char) : Bool :=
  c.isDigit ∨ ('a' ≤ c ∧ c ≤ 'f') ∨ ('A' ≤ c ∧ c ≤ 'F')

def hexVal (c : Char) : ℕ :=
  if c.isDigit then c.toNat - 48
  else if 'a' ≤ c ∧ c ≤ 'f' then c.toNat - 87
  else c.toNat - 55

/-- A single-character JSON escape (`\uXXXX` is handled separately). -/
def escChar : Char → Option Char
  | '"' => Option.some '"'
  | '\\' => Option.some '\\'
  | '/' => Option.some '/'
  | 'b' => Option.some (Char.ofNat 8)
  | 'f' => Option.some (Char.ofNat 12)
  | 'n' => Option.some (Char.ofNat 10)
  | 'r' => Option.some (Char.ofNat 13)
  | 't' => Option.some (Char.ofNat 9)
  | _ => Option.none

/-- Scan a JSON string body after the opening quote, decoding escapes, up to
the closing quote; returns the content and the rest.  Unpaired surrogates in
`\uXXXX` fall back to `Char.ofNat`'s default character: a content-level
approximation that never changes whether anything raises. -/
def jsonStringChars : List Char → Option (List Char × List Char)
  | '"' :: rest => Option.some ([], rest)
  | '\\' :: 'u' :: a :: b :: c :: d :: rest =>
      if isHexDigitCh a ∧ isHexDigitCh b ∧ isHexDigitCh c ∧ isHexDigitCh d then
        (match jsonStringChars rest with
          | Option.some (content, rest2) =>
            Option.some
              (Char.ofNat (((hexVal a * 16 + hexVal b) * 16 + hexVal c) * 16 + hexVal d)
                :: content, rest2)
          | Option.none => Option.none)
      else Option.none
  | '\\' :: e :: rest =>
      (match escChar e with
        | Option.some ch =>
          (match jsonStringChars rest with
            | Option.some (content, rest2) => Option.some (ch :: content, rest2)
            | Option.none => Option.none)
        | Option.none => Option.none)
  | ch :: rest =>
      (match jsonStringChars rest with
        | Option.some (content, rest2) => Option.some (ch :: content, rest2)
        | Option.none => Option.none)
  | [] => Option.none

/-- A JSON string literal, escapes included. -/
def jsonString : List Char → Option (String × List Char)
  | '"' :: rest =>
      (match jsonStringChars rest with
        | Option.some (content, rest2) => Option.some (String.mk content, rest2)
        | Option.none => Option.none)
  | _ => Option.none

mutual

/-- Fuel-indexed JSON value parser modelling `json.loads`; covers null,
booleans, numbers, escape-free strings, arrays, objects and Python's
`Infinity`/`-Infinity`/`NaN` extensions. -/
def jsonValueAux : ℕ → List Char → Option (PyVal × List Char)
  | 0, _ => Option.none
  | Nat.succ fuel, cs =>
    match skipWs cs with
    | '[' :: rest => jsonArrayAux fuel (skipWs rest)
    | '\x7b' :: rest => jsonObjectAux fuel (skipWs rest)
    | '"' :: rest =>
      (match jsonString ('"' :: rest) with
        | Option.some (s, rest2) => Option.some (PyVal.str s, rest2)
        | Option.none => Option.none)
    | 't' :: 'r' :: 'u' :: 'e' :: rest => Option.some (PyVal.bool true, rest)
    | 'f' :: 'a' :: 'l' :: 's' :: 'e' :: rest => Option.some (PyVal.bool false, rest)
    | 'n' :: 'u' :: 'l' :: 'l' :: rest => Option.some (PyVal.none, rest)
    | 'I' :: 'n' :: 'f' :: 'i' :: 'n' :: 'i' :: 't' :: 'y' :: rest =>
      Option.some (PyVal.nonfinite, rest)
    | '-' :: 'I' :: 'n' :: 'f' :: 'i' :: 'n' :: 'i' :: 't' :: 'y' :: rest =>
      Option.some (PyVal.nonfinite, rest)
    | 'N' :: 'a' :: 'N' :: rest => Option.some (PyVal.nonfinite, rest)
    | other =>
      let (numCs, rest) := other.span isNumChar
      (match parseDecimal (String.mk numCs) with
        | Option.some q => Option.some (PyVal.num q, rest)
        | Option.none => Option.none)

/-- Array body after the opening bracket (whitespace already skipped). -/
def jsonArrayAux : ℕ → List Char → Option (PyVal × List Char)
  | 0, _ => Option.none
  | Nat.succ fuel, cs =>
    match cs with
    | ']' :: rest => Option.some (PyVal.list [], rest)
    | _ =>
      match jsonItemsAux fuel cs with
      | Option.some (vs, rest) => Option.some (PyVal.list vs, rest)
      | Option.none => Option.none

/-- One or more comma-separated items followed by the closing bracket. -/
def jsonItemsAux : ℕ → List Char → Option (List PyVal × List Char)
  | 0, _ => Option.none
  | Nat.succ fuel, cs =>
    match jsonValueAux fuel cs with
    | Option.none => Option.none
    | Option.some (v, rest) =>
      match skipWs rest with
      | ',' :: rest2 =>
        (match jsonItemsAux fuel rest2 with
          | Option.some (vs, rest3) => Option.some (v :: vs, rest3)
          | Option.none => Option.none)
      | ']' :: rest2 => Option.some ([v], rest2)
      | _ => Option.none

/-- Object body after the opening brace (whitespace already skipped). -/
def jsonObjectAux : ℕ → List Char → Option (PyVal × List Char)
  | 0, _ => Option.none
  | Nat.succ fuel, cs =>
    match cs with
    | '\x7d' :: rest => Option.some (PyVal.dict [], rest)
    | _ =>
      match jsonMembersAux fuel cs with
      | Option.some (kvs, rest) => Option.some (PyVal.dict kvs, rest)
      | Option.none => Option.none

/-- One or more `"key": value` members followed by the closing brace. -/
def jsonMembersAux : ℕ → List Char → Option (List (String × PyVal) × List Char)
  | 0, _ => Option.none
  | Nat.succ fuel, cs =>
    match jsonString (skipWs cs) with
    | Option.none => Option.none
    | Option.some (k, rest) =>
      match skipWs rest with
      | ':' :: rest2 =>
        (match jsonValueAux fuel rest2 with
          | Option.none => Option.none
          | Option.some (v, rest3) =>
            (match skipWs rest3 with
              | ',' :: rest4 =>
                (match jsonMembersAux fuel rest4 with
                  | Option.some (kvs, rest5) => Option.some ((k, v) :: kvs, rest5)
                  | Option.none => Option.none)
              | '\x7d' :: rest4 => Option.some ([(k, v)], rest4)
              | _ => Option.none))
      | _ => Option.none

end

/-- Model of `json.loads` restricted to the subset described at
`jsonValueAux`. -/
def jsonLoads (s : String) : Option PyVal :=
  match jsonValueAux (s.length + 1) s.toList with
  | Option.some (v, rest) => if skipWs rest = [] then Option.some v else Option.none
  | Option.none => Option.none

/-- A raw upstream record: a string-keyed bag of values, as `dict` in Python. -/
abbrev PyDict := List (String × PyVal)

/-- Python `d.get(k)`: `None` when the key is missing. -/
def PyDict.get (d : PyDict) (k : String) : PyVal :=
  match d.find? (fun p => p.1 = k) with
  | Option.some p => p.2
  | Option.none => PyVal.none

/-- Python `d.get(k, dflt)`. -/
def PyDict.getD (d : PyDict) (k : String) (dflt : PyVal) : PyVal :=
  match d.find? (fun p => p.1 = k) with
  | Option.some p => p.2
  | Option.none => dflt

/-! ## services/polymarket_service.py -/

/-- The pricing part of `parse_outcome_prices` once the raw value has been
JSON-decoded (`outcome_prices` in the source). -/
def outcome_prices_body (outcome_prices : PyVal) : Except PyErr (ℚ × ℚ) :=
  if truthy outcome_prices then do
    let n ← pyLen outcome_prices
    if 1 ≤ n then do
      let x0 ← pyIndex outcome_prices 0
      let yes_price ← pyFloat x0
      let no_price ←
        if 1 < n then do
          let x1 ← pyIndex outcome_prices 1
          pyFloat x1
        else Except.ok (1 - yes_price)
      Except.ok (yes_price, no_price)
    else Except.ok (1/2, 1/2)
  else Except.ok (1/2, 1/2)

/-- Body of the `try` block of `parse_outcome_prices`. -/
def parse_outcome_prices_core (raw : PyVal) : Except PyErr (ℚ × ℚ) := do
  let outcome_prices ←
    match raw with
    | PyVal.str s =>
        (match jsonLoads s with
          | Option.some v => Except.ok v
          | Option.none => Except.error PyErr.valueError)
    | v => Except.ok (if truthy v then v else PyVal.list [])
  outcome_prices_body outcome_prices

/-- `parse_outcome_prices`: the `except (ValueError, IndexError,
json.JSONDecodeError)` handler turns those errors into the `(0.5, 0.5)`
default; a `TypeError` propagates. -/
def parse_outcome_prices (raw : PyVal) : Except PyErr (ℚ × ℚ) :=
  match parse_outcome_prices_core raw with
  | Except.ok p => Except.ok p
  | Except.error PyErr.valueError => Except.ok (1/2, 1/2)
  | Except.error PyErr.indexError => Except.ok (1/2, 1/2)
  | Except.error e => Except.error e

/-- Days since 1970-01-01 of a civil date (Hinnant's algorithm). -/
def daysFromCivil (y m d : ℤ) : ℤ :=
  let y2 := if m ≤ 2 then y - 1 else y
  let era := Int.fdiv y2 400
  let yoe := y2 - era * 400
  let mp := Int.emod (m + 9) 12
  let doy := Int.fdiv (153 * mp + 2) 5 + d - 1
  let doe := yoe * 365 + Int.fdiv yoe 4 - Int.fdiv yoe 100 + doy
  era * 146097 + doe - 719468

/-- Day number of an ISO-8601-like date string, modelling
`datetime.fromisoformat(s.replace('Z', '+00:00'))` at day granularity
(the time-of-day and zone offset do not matter to any claim). -/
def parseIsoDate (s : String) : Option ℤ :=
  match s.toList with
  | y1 :: y2 :: y3 :: y4 :: '-' :: m1 :: m2 :: '-' :: d1 :: d2 :: rest =>
    if allDigits [y1, y2, y3, y4] ∧ allDigits [m1, m2] ∧ allDigits [d1, d2] ∧
        (rest = [] ∨ rest.head? = Option.some 'T' ∨ rest.head? = Option.some ' ') then
      let m := (digitsToNat [m1, m2] : ℤ)
      let d := (digitsToNat [d1, d2] : ℤ)
      if 1 ≤ m ∧ m ≤ 12 ∧ 1 ≤ d ∧ d ≤ 31 then
        Option.some (daysFromCivil (digitsToNat [y1, y2, y3, y4] : ℤ) m d)
      else Option.none
    else Option.none
  | _ => Option.none

/-- The `days_until` computation of `_parse_market`: the whole block is inside
`try ... except: pass`, so any failure leaves the field `None`. -/
def isoDaysUntil (v : PyVal) (nowDay : ℤ) : Option ℤ :=
  match v with
  | PyVal.str s =>
      (match parseIsoDate s with
        | Option.some endDay => Option.some (max 0 (endDay - nowDay))
        | Option.none => Option.none)
  | _ => Option.none

/-- The normalized market record `_parse_market` returns. -/
structure Snapshot where
  id : PyVal
  question : PyVal
  description : PyVal
  yes_price : ℚ
  no_price : ℚ
  best_bid : Option ℚ
  best_ask : Option ℚ
  last_trade_price : Option ℚ
  volume : ℚ
  volume_24h : ℚ
  volume_1w : ℚ
  liquidity : ℚ
  spread : ℚ
  one_hour_change : ℚ
  one_day_change : ℚ
  one_week_change : ℚ
  one_month_change : ℚ
  competitive : ℚ
  comment_count : ℤ
  tags : PyVal
  featured : PyVal
  end_date : PyVal
  days_until_resolution : Option ℤ
  image : PyVal

/-- `float(x) if x is not None else None`. -/
def optFloat (v : PyVal) : Except PyErr (Option ℚ) :=
  if isNone v then Except.ok Option.none
  else do
    let q ← pyFloat v
    Except.ok (Option.some q)

/-- The price-source priority chain of `_parse_market` (its lines 31-50):
last trade, then bid/ask mid, then outcome prices, then the 0.5 fallback.
Returns the pre-clamp `(yes_price, no_price)` pair. -/
def resolve_prices (market : PyDict) : Except PyErr (ℚ × ℚ) :=
  let best_bid := market.get "bestBid"
  let best_ask := market.get "bestAsk"
  let last_trade := market.get "lastTradePrice"
  let outcome_prices_raw := market.get "outcomePrices"
  if !isNone last_trade then do
    let y ← pyFloat last_trade
    Except.ok (y, 1 - y)
  else if !isNone best_bid && !isNone best_ask then do
    let b ← pyFloat best_bid
    let a ← pyFloat best_ask
    Except.ok ((b + a) / 2, 1 - (b + a) / 2)
  else if truthy outcome_prices_raw then
    parse_outcome_prices outcome_prices_raw
  else
    Except.ok (1/2, 1/2)

/-- `_parse_market(market, event)`.  `nowDay` models `datetime.now` at day
granularity.  Mirrors the source order: price-priority chain, clamp,
`days_until`, then the field conversions of the returned dict. -/
def _parse_market (market event : PyDict) (nowDay : ℤ) : Except PyErr Snapshot := do
  let best_bid := market.get "bestBid"
  let best_ask := market.get "bestAsk"
  let last_trade := market.get "lastTradePrice"
  let prices ← resolve_prices market
  let yes_price := max (1/1000) (min (999/1000) prices.1)
  let no_price := 1 - yes_price
  let end_date := pyOr (market.get "endDate") (event.get "endDate")
  let days_until := isoDaysUntil end_date nowDay
  let best_bid_f ← optFloat best_bid
  let best_ask_f ← optFloat best_ask
  let last_trade_f ← optFloat last_trade
  let volume ← pyFloat (pyOr (market.get "volume") (PyVal.num 0))
  let volume_24h ← pyFloat (pyOr (market.get "volume24hr") (PyVal.num 0))
  let volume_1w ← pyFloat (pyOr (market.get "volume1wk") (PyVal.num 0))
  let liquidity ← pyFloat (pyOr (market.get "liquidity") (PyVal.num 0))
  let spread ← pyFloat (pyOr (market.get "spread") (PyVal.num 0))
  let one_hour ← pyFloat (pyOr (market.get "oneHourPriceChange") (PyVal.num 0))
  let one_day ← pyFloat (pyOr (market.get "oneDayPriceChange") (PyVal.num 0))
  let one_week ← pyFloat (pyOr (market.get "oneWeekPriceChange") (PyVal.num 0))
  let one_month ← pyFloat (pyOr (market.get "oneMonthPriceChange") (PyVal.num 0))
  let competitive ← pyFloat (pyOr (market.get "competitive") (PyVal.num 0))
  let comment_count ← pyInt (pyOr (event.get "commentCount") (PyVal.num 0))
  Except.ok
    { id := pyOr (pyOr (market.get "conditionId") (market.get "id")) (PyVal.str "")
      question := pyOr (pyOr (market.get "question") (event.get "title")) (PyVal.str "Unknown")
      description := pyOr (pyOr (market.get "description") (event.get "description")) (PyVal.str "")
      yes_price := yes_price
      no_price := no_price
      best_bid := best_bid_f
      best_ask := best_ask_f
      last_trade_price := last_trade_f
      volume := volume
      volume_24h := volume_24h
      volume_1w := volume_1w
      liquidity := liquidity
      spread := spread
      one_hour_change := one_hour
      one_day_change := one_day
      one_week_change := one_week
      one_month_change := one_month
      competitive := competitive
      comment_count := comment_count
      tags := pyOr (event.get "tags") (PyVal.list [])
      featured := event.getD "featured" (PyVal.bool false)
      end_date := end_date
      days_until_resolution := days_until
      image := pyOr (market.get "image") (event.get "image") }

/-! ## Rounding

Python `round(x, n)` rounds half to even.  It acts on binary doubles; the
model rounds the exact rational half to even, which is the documented intent
and agrees wherever a claim evaluates it. -/

def roundHalfEven (q : ℚ) : ℤ :=
  if q - (⌊q⌋ : ℚ) < 1/2 then ⌊q⌋
  else if 1/2 < q - (⌊q⌋ : ℚ) then ⌊q⌋ + 1
  else if ⌊q⌋ % 2 = 0 then ⌊q⌋ else ⌊q⌋ + 1

/-- `round(q, n)`. -/
def roundTo (n : ℕ) (q : ℚ) : ℚ :=
  ((roundHalfEven (q * (10 : ℚ) ^ n) : ℚ)) / (10 : ℚ) ^ n

/-! ## services/market_analyzer.py

The scoring section of `calculate_opportunity_score` (the claim's cited
lines) works on the values extracted just above it with their `or`-defaults
already applied; `ScoreInputs` is that post-extraction record.  The reference
code uses `math.log10`; the model takes the logarithm as an explicit function
argument, with `log10Q` below as a concrete executable instance. -/

structure ScoreInputs where
  price : ℚ
  volume_24h : ℚ
  volume_1w : ℚ
  liquidity : ℚ
  spread : ℚ
  competitive : ℚ
  change_1h : ℚ
  change_24h : ℚ
  change_1w : ℚ
  change_1m : ℚ
  comment_count : ℤ
  is_featured : Bool
  days_until_resolution : Option ℤ

def momentum_score (inp : ScoreInputs) : ℚ :=
  min 100 (|inp.change_24h| * 500 + |inp.change_1w| * 200)

def volume_score (log10 : ℚ → ℚ) (inp : ScoreInputs) : ℚ :=
  min 100 (log10 (max 1 inp.volume_24h) * 15)

def liquidity_score (log10 : ℚ → ℚ) (inp : ScoreInputs) : ℚ :=
  min 100 (log10 (max 1 inp.liquidity) * 15)

def spread_score (inp : ScoreInputs) : ℚ :=
  max 0 (100 - inp.spread * 2000)

def uncertainty_score (inp : ScoreInputs) : ℚ :=
  100 - |inp.price - 0.5| * 200

def timing_score (inp : ScoreInputs) : ℚ :=
  match inp.days_until_resolution with
  | Option.none => 50
  | Option.some d =>
      if d < 1 then 30
      else if d < 7 then 100
      else if d < 30 then 80
      else if d < 90 then 60
      else 40

def engagement_score (log10 : ℚ → ℚ) (inp : ScoreInputs) : ℚ :=
  let e := min 100 (log10 (max 1 (inp.comment_count : ℚ)) * 30)
  if inp.is_featured then min 100 (e + 20) else e

def total_score (log10 : ℚ → ℚ) (inp : ScoreInputs) : ℚ :=
  momentum_score inp * 0.25 +
  volume_score log10 inp * 0.20 +
  liquidity_score log10 inp * 0.15 +
  spread_score inp * 0.10 +
  uncertainty_score inp * 0.15 +
  timing_score inp * 0.10 +
  engagement_score log10 inp * 0.05

/-- The `score_breakdown` mapping of the enriched market object. -/
structure ScoreBreakdown where
  momentum : ℚ
  volume : ℚ
  liquidity : ℚ
  spread : ℚ
  uncertainty : ℚ
  timing : ℚ
  engagement : ℚ

def score_breakdown (log10 : ℚ → ℚ) (inp : ScoreInputs) : ScoreBreakdown :=
  { momentum := roundTo 1 (momentum_score inp)
    volume := roundTo 1 (volume_score log10 inp)
    liquidity := roundTo 1 (liquidity_score log10 inp)
    spread := roundTo 1 (spread_score inp)
    uncertainty := roundTo 1 (uncertainty_score inp)
    timing := roundTo 1 (timing_score inp)
    engagement := roundTo 1 (engagement_score log10 inp) }

/-- The `opportunity_score` field: weighted total rounded to one decimal. -/
def opportunity_score_of (log10 : ℚ → ℚ) (inp : ScoreInputs) : ℚ :=
  roundTo 1 (total_score log10 inp)

/-- An executable stand-in for `math.log10`: the integer part of the base-10
logarithm.  It is nonnegative on `[1, ∞)`, which is the only property of
`math.log10` the scorer's range depends on. -/
def log10Q (q : ℚ) : ℚ := (Nat.log 10 q.floor.toNat : ℚ)

/-- A market record carrying an out-of-range last-trade price of 2 (all other
fields at their extraction defaults). -/
def outOfRangeInput : ScoreInputs :=
  { price := 2, volume_24h := 0, volume_1w := 0, liquidity := 0, spread := 0,
    competitive := 0, change_1h := 0, change_24h := 0, change_1w := 0, change_1m := 0,
    comment_count := 0, is_featured := false, days_until_resolution := Option.none }

/-- An analyzed market as far as ranking is concerned: its identity and its
`opportunity_score` (the sort key of `get_top_opportunities`). -/
structure AnalyzedMarket where
  market_id : String
  opportunity_score : ℚ
deriving DecidableEq, Repr

/-- Insertion step of a stable descending sort: a later-input element moves
in front of an earlier one only when its score is strictly greater. -/
def insertDesc (x : AnalyzedMarket) : List AnalyzedMarket → List AnalyzedMarket
  | [] => [x]
  | y :: ys =>
      if x.opportunity_score < y.opportunity_score then y :: insertDesc x ys
      else x :: y :: ys

/-- Stable descending sort by `opportunity_score`, modelling
`analyzed_markets.sort(key=lambda x: x["opportunity_score"], reverse=True)`
(Python's sort is stable, and `reverse=True` keeps equal keys in input
order). -/
def sortDesc : List AnalyzedMarket → List AnalyzedMarket
  | [] => []
  | x :: xs => insertDesc x (sortDesc xs)

/-- The ranking step of `get_top_opportunities` over an already analyzed
batch (the preceding fetch-and-score loop is I/O): sort descending, take the
top `limit`. -/
def get_top_opportunities (analyzed_markets : List AnalyzedMarket) (limit : ℕ) :
    List AnalyzedMarket :=
  (sortDesc analyzed_markets).take limit

/-! ## main.py: rate limiter -/

/-- `collections.deque(maxlen=100)` append: on overflow the oldest entry is
discarded from the front. -/
def dequeAppend (maxlen : ℕ) (xs : List ℚ) (x : ℚ) : List ℚ :=
  let ys := xs ++ [x]
  ys.drop (ys.length - maxlen)

/-- `check_rate_limit` for one `(client_ip, endpoint)` key: `requests` is that
key's deque, `now` is `time.time()`.  Returns the admission decision and the
updated deque. -/
def check_rate_limit (requests : List ℚ) (now : ℚ) (max_requests : ℕ)
    (window_seconds : ℚ) : Bool × List ℚ :=
  let window_start := now - window_seconds
  let pruned := requests.dropWhile (fun t => decide (t < window_start))
  if max_requests ≤ pruned.length then (false, pruned)
  else (true, dequeAppend 100 pruned now)

/-- The admission rule exactly as the claim words it: evict every timestamp
older than `now - window_seconds`, admit and record `now` if and only if the
remaining count is strictly below `max_requests`. -/
def claimRateCheck (requests : List ℚ) (now : ℚ) (max_requests : ℕ)
    (window_seconds : ℚ) : Bool × List ℚ :=
  let pruned := requests.filter (fun t => decide (now - window_seconds ≤ t))
  if pruned.length < max_requests then (true, pruned ++ [now])
  else (false, pruned)

/-- Run a sequence of admission attempts through `check_rate_limit`,
starting from the empty record. -/
def runRateAttempts (times : List ℚ) (max_requests : ℕ) (window_seconds : ℚ) :
    List Bool × List ℚ :=
  times.foldl
    (fun acc t =>
      let r := check_rate_limit acc.2 t max_requests window_seconds
      (acc.1 ++ [r.1], r.2))
    ([], [])


/-! ## main.py: /markets cache -/

/-- `_market_cache`: two independently optional slots, exactly as the module
dict `{"data": None, "timestamp": None}`. -/
structure MarketCache (α : Type) where
  data : Option α
  timestamp : Option ℚ
deriving Repr

inductive MarketsError where
  | rateLimited
  | fetchFailed
deriving DecidableEq, Repr

/-- Freshness test of the cached entry (`age < cache_ttl`). -/
def MarketCache.isFresh {α : Type} (c : MarketCache α) (now ttl : ℚ) : Bool :=
  match c.data, c.timestamp with
  | Option.some _, Option.some ts => decide (now - ts < ttl)
  | _, _ => false

/-- The `get_markets` endpoint: rate-limit check, fresh-cache short cut,
upstream fetch with cache replacement, stale fallback on fetch failure.
`fetch` is the outcome the upstream call would have (the call is awaited
I/O); the result triple is (response, updated rate deque, updated cache). -/
def get_markets {α : Type} (requests : List ℚ) (cache : MarketCache α) (now : ℚ)
    (rate_limit_markets : ℕ) (cache_ttl : ℚ) (fetch : Except Unit α) :
    Except MarketsError α × List ℚ × MarketCache α :=
  let rl := check_rate_limit requests now rate_limit_markets 60
  if !rl.1 then (Except.error MarketsError.rateLimited, rl.2, cache)
  else
    let tryFetch : Except MarketsError α × List ℚ × MarketCache α :=
      match fetch with
      | Except.ok result =>
          (Except.ok result, rl.2,
            { data := Option.some result, timestamp := Option.some now })
      | Except.error _ =>
          match cache.data with
          | Option.some d => (Except.ok d, rl.2, cache)
          | Option.none => (Except.error MarketsError.fetchFailed, rl.2, cache)
    match cache.data, cache.timestamp with
    | Option.some d, Option.some ts =>
        if now - ts < cache_ttl then (Except.ok d, rl.2, cache) else tryFetch
    | _, _ => tryFetch

/-! ## models.py / schemas.py / main.py: paper-trading ledger -/

inductive TradeDirection where
  | YES
  | NO
deriving DecidableEq, Repr

inductive TradeStatus where
  | ACTIVE
  | CLOSED
deriving DecidableEq, Repr

/-- A `trades` row.  `created_at`/`closed_at` are server timestamps no claim
touches and are omitted; `entry_price`/`current_price` are nullable columns. -/
structure Trade where
  id : ℕ
  market_id : String
  market_question : String
  direction : TradeDirection
  amount : ℚ
  entry_price : Option ℚ
  current_price : Option ℚ
  status : TradeStatus
deriving DecidableEq, Repr

/-- The ledger's durable state: the singleton portfolio row's balance (if the
row exists) and the trades table. -/
structure LedgerState where
  portfolio : Option ℚ
  trades : List Trade
deriving DecidableEq, Repr

structure SimulateTradeRequest where
  market_id : String
  market_question : String
  amount : ℚ
  direction : String
  price : ℚ
deriving DecidableEq, Repr

inductive PlaceError where
  /-- pydantic request validation failure (HTTP 422), tagged with the field. -/
  | validationError (field : String)
  /-- 404 "Portfolio not found". -/
  | notFound
  /-- 400 "Amount must be positive". -/
  | badAmount
  /-- 400 "Insufficient balance". -/
  | insufficientBalance
  /-- 400 "Direction must be YES or NO". -/
  | badDirection
deriving DecidableEq, Repr

/-- `SimulateTradeRequest` validation: `amount` has `gt=0, le=1000000`, a
minimum of `$1`, and is rounded to 2 decimals; `direction` must be YES or NO;
`price` has `ge=0.0, le=1.0`.  pydantic checks fields independently and
reports every failure; the model checks them in declaration order and names
the first failing field. -/
def validate_simulate_request (r : SimulateTradeRequest) :
    Except PlaceError SimulateTradeRequest :=
  if ¬ (0 < r.amount ∧ r.amount ≤ 1000000) then
    Except.error (PlaceError.validationError "amount")
  else if r.amount < 1 then Except.error (PlaceError.validationError "amount")
  else if ¬ (r.direction = "YES" ∨ r.direction = "NO") then
    Except.error (PlaceError.validationError "direction")
  else if ¬ (0 ≤ r.price ∧ r.price ≤ 1) then
    Except.error (PlaceError.validationError "price")
  else Except.ok { r with amount := roundTo 2 r.amount }

/-- The `/simulate-trade` handler body on a validated request: check
portfolio, amount, balance, direction; then insert the trade and debit the
balance as one commit.  Returns the outcome together with the (unchanged on
failure) ledger state. -/
def simulate_trade (req : SimulateTradeRequest) (st : LedgerState) :
    Except PlaceError Trade × LedgerState :=
  match st.portfolio with
  | Option.none => (Except.error PlaceError.notFound, st)
  | Option.some balance =>
    if req.amount ≤ 0 then (Except.error PlaceError.badAmount, st)
    else if balance < req.amount then (Except.error PlaceError.insufficientBalance, st)
    else if ¬ (req.direction = "YES" ∨ req.direction = "NO") then
      (Except.error PlaceError.badDirection, st)
    else
      let t : Trade :=
        { id := st.trades.length + 1
          market_id := req.market_id
          market_question := req.market_question
          direction := if req.direction = "YES" then TradeDirection.YES else TradeDirection.NO
          amount := req.amount
          entry_price := Option.some req.price
          current_price := Option.some req.price
          status := TradeStatus.ACTIVE }
      (Except.ok t,
        { portfolio := Option.some (balance - req.amount), trades := st.trades ++ [t] })

/-- The full placement path: pydantic validation, then the handler. -/
def place_trade (r : SimulateTradeRequest) (st : LedgerState) :
    Except PlaceError Trade × LedgerState :=
  match validate_simulate_request r with
  | Except.error e => (Except.error e, st)
  | Except.ok req => simulate_trade req st

/-- Python division, which raises `ZeroDivisionError` on a zero divisor. -/
def pyDiv (a b : ℚ) : Except PyErr ℚ :=
  if b = 0 then Except.error PyErr.zeroDivision else Except.ok (a / b)

/-- Per-trade PnL of the `/portfolio` loop.  The guard is Python's
`if t.current_price and t.entry_price:`, which is false for a missing (None)
price and for a zero price alike. -/
def tradePnl (t : Trade) : Except PyErr ℚ :=
  match t.current_price, t.entry_price with
  | Option.some cp, Option.some ep =>
      if cp ≠ 0 ∧ ep ≠ 0 then
        if t.direction = TradeDirection.YES then pyDiv ((cp - ep) * t.amount) ep
        else pyDiv ((ep - cp) * t.amount) ep
      else Except.ok 0
  | _, _ => Except.ok 0

inductive PortfolioError where
  | notFound
  | pyErr (e : PyErr)
deriving DecidableEq, Repr

/-- The `/portfolio` response: balance, each active trade with its pnl, and
the aggregate pnl. -/
structure PortfolioView where
  balance : ℚ
  active_trades : List (Trade × ℚ)
  total_pnl : ℚ
deriving DecidableEq, Repr

/-- The `/portfolio` handler: 404 without a portfolio row; otherwise compute
pnl for every ACTIVE trade and sum. -/
def get_portfolio (st : LedgerState) : Except PortfolioError PortfolioView :=
  match st.portfolio with
  | Option.none => Except.error PortfolioError.notFound
  | Option.some balance =>
    let actives := st.trades.filter (fun t => decide (t.status = TradeStatus.ACTIVE))
    match actives.mapM (fun t => (tradePnl t).map (fun p => (t, p))) with
    | Except.ok infos =>
        Except.ok
          { balance := balance
            active_trades := infos
            total_pnl := (infos.map (fun i => i.2)).sum }
    | Except.error e => Except.error (PortfolioError.pyErr e)

/-! ## Well-formedness predicates for upstream fields

These describe exactly which raw values the normalizer's conversions accept
without an uncaught exception; they are used to state the corrected form of
the true-for-well-formed-inputs robustness claim. -/

/-- Values Python's `float()` converts without raising. -/
def floatable : PyVal → Bool
  | PyVal.num _ => true
  | PyVal.bool _ => true
  | PyVal.str s => (parseDecimal s).isSome
  | _ => false

/-- Values Python's `int()` converts without raising. -/
def intable : PyVal → Bool
  | PyVal.num _ => true
  | PyVal.bool _ => true
  | PyVal.str s => (parseIntStr s).isSome
  | _ => false

/-- A field read as `float(market.get(k) or 0)` is exception-free when falsy
(the `or` default 0 is used) or float-convertible. -/
def orFloatOk (v : PyVal) : Bool := !truthy v || floatable v

/-- A field read as `int(event.get(k) or 0)`. -/
def orIntOk (v : PyVal) : Bool := !truthy v || intable v

/-- A field read as `float(x) if x is not None else None`. -/
def optFloatOk (v : PyVal) : Bool := isNone v || floatable v

/-- Elements on which the outcome-price loop raises at worst a caught
`ValueError` (`None` and nested lists raise an uncaught `TypeError`). -/
def safeOutcomeElem : PyVal → Bool
  | PyVal.num _ => true
  | PyVal.str _ => true
  | PyVal.bool _ => true
  | _ => false

/-- `outcomePrices` values on which `parse_outcome_prices` cannot raise an
uncaught exception: anything falsy, a list of numbers/strings/booleans, or a
string that fails to JSON-decode (only the caught `JSONDecodeError`) or
decodes to something falsy or to such a list.  A truthy dict raises an
uncaught `KeyError` (integer subscript into a string-keyed object) and a
nonfinite float an uncaught `TypeError` (`len` of a float), so neither is
admitted, raw or JSON-decoded. -/
def outcomesOk : PyVal → Bool
  | PyVal.none => true
  | PyVal.bool b => !b
  | PyVal.num q => decide (q = 0)
  | PyVal.str s =>
      (match jsonLoads s with
        | Option.none => true
        | Option.some (PyVal.list xs) => xs.all safeOutcomeElem
        | Option.some w => !truthy w)
  | PyVal.list xs => xs.all safeOutcomeElem
  | PyVal.dict kvs => kvs.isEmpty
  | PyVal.nonfinite => false

/-! ## Helper lemmas -/

theorem except_bind_ok {ε α β : Type} {e : Except ε α} {f : α → Except ε β} {b : β} :
    (e >>= f) = Except.ok b ↔ ∃ a, e = Except.ok a ∧ f a = Except.ok b := by
  cases e <;> simp [Bind.bind, Except.bind]

theorem except_ok_bind {ε α β : Type} {a : α} {f : α → Except ε β} :
    ((Except.ok a : Except ε α) >>= f) = f a := rfl

theorem except_error_bind {ε α β : Type} {e : ε} {f : α → Except ε β} :
    ((Except.error e : Except ε α) >>= f) = Except.error e := rfl

theorem floatable_pyFloat {v : PyVal} (h : floatable v = true) :
    ∃ q, pyFloat v = Except.ok q := by
  cases v with
  | num q => exact ⟨q, rfl⟩
  | bool b => exact ⟨if b then 1 else 0, rfl⟩
  | str s =>
      simp only [floatable, Option.isSome] at h
      cases hp : parseDecimal s with
      | none => rw [hp] at h; exact absurd h (by simp)
      | some q => exact ⟨q, by simp [pyFloat, hp]⟩
  | none => exact absurd h (by simp [floatable])
  | list xs => exact absurd h (by simp [floatable])
  | dict kvs => exact absurd h (by simp [floatable])
  | nonfinite => exact absurd h (by simp [floatable])

theorem intable_pyInt {v : PyVal} (h : intable v = true) :
    ∃ n, pyInt v = Except.ok n := by
  cases v with
  | num q => exact ⟨ratTrunc q, rfl⟩
  | bool b => exact ⟨if b then 1 else 0, rfl⟩
  | str s =>
      simp only [intable, Option.isSome] at h
      cases hp : parseIntStr s with
      | none => rw [hp] at h; exact absurd h (by simp)
      | some n => exact ⟨n, by simp [pyInt, hp]⟩
  | none => exact absurd h (by simp [intable])
  | list xs => exact absurd h (by simp [intable])
  | dict kvs => exact absurd h (by simp [intable])
  | nonfinite => exact absurd h (by simp [intable])

theorem orFloat_ok {v : PyVal} (h : orFloatOk v = true) :
    ∃ q, pyFloat (pyOr v (PyVal.num 0)) = Except.ok q := by
  unfold orFloatOk at h
  unfold pyOr
  cases ht : truthy v with
  | false => exact ⟨0, by simp [ht, pyFloat]⟩
  | true =>
      rw [ht] at h
      simp only [Bool.not_true, Bool.false_or] at h
      simpa [ht] using floatable_pyFloat h

theorem orInt_ok {v : PyVal} (h : orIntOk v = true) :
    ∃ n, pyInt (pyOr v (PyVal.num 0)) = Except.ok n := by
  unfold orIntOk at h
  unfold pyOr
  cases ht : truthy v with
  | false => exact ⟨0, by simp [ht]; rfl⟩
  | true =>
      rw [ht] at h
      simp only [Bool.not_true, Bool.false_or] at h
      simpa [ht] using intable_pyInt h

theorem outcome_body_falsy {w : PyVal} (h : truthy w = false) :
    outcome_prices_body w = Except.ok (1/2, 1/2) := by
  unfold outcome_prices_body
  simp [h]

theorem outcome_body_nil : outcome_prices_body (PyVal.list []) = Except.ok (1/2, 1/2) := rfl

theorem optFloat_ok {v : PyVal} (h : optFloatOk v = true) :
    ∃ o, optFloat v = Except.ok o := by
  unfold optFloatOk at h
  unfold optFloat
  cases hn : isNone v with
  | true => exact ⟨Option.none, by simp [hn]⟩
  | false =>
      rw [hn] at h
      simp only [Bool.false_or] at h
      obtain ⟨q, hq⟩ := floatable_pyFloat h
      exact ⟨Option.some q, by simp [hn, hq, except_ok_bind]⟩

theorem safeElem_pyFloat {x : PyVal} (h : safeOutcomeElem x = true) :
    (∃ q, pyFloat x = Except.ok q) ∨ pyFloat x = Except.error PyErr.valueError := by
  cases x with
  | num q => exact Or.inl ⟨q, rfl⟩
  | bool b => exact Or.inl ⟨if b then 1 else 0, rfl⟩
  | str s =>
      cases hp : parseDecimal s with
      | none => exact Or.inr (by simp [pyFloat, hp])
      | some q => exact Or.inl ⟨q, by simp [pyFloat, hp]⟩
  | none => exact absurd h (by simp [safeOutcomeElem])
  | list xs => exact absurd h (by simp [safeOutcomeElem])
  | dict kvs => exact absurd h (by simp [safeOutcomeElem])
  | nonfinite => exact absurd h (by simp [safeOutcomeElem])

theorem outcome_body_list_ok {xs : List PyVal} (h : xs.all safeOutcomeElem = true) :
    (∃ p, outcome_prices_body (PyVal.list xs) = Except.ok p) ∨
      outcome_prices_body (PyVal.list xs) = Except.error PyErr.valueError := by
  unfold outcome_prices_body
  cases ht : truthy (PyVal.list xs) with
  | false => exact Or.inl ⟨(1/2, 1/2), by simp [ht]⟩
  | true =>
      simp only [ht, if_true, pyLen, except_ok_bind]
      cases xs with
      | nil => simp [truthy] at ht
      | cons x0 rest =>
          simp only [List.all_cons, Bool.and_eq_true] at h
          have hlen : (1 : ℕ) ≤ (x0 :: rest).length := by simp
          simp only [hlen, if_true, pyIndex, List.get?, except_ok_bind]
          rcases safeElem_pyFloat h.1 with ⟨q0, hq0⟩ | hq0
          · rw [hq0, except_ok_bind]
            cases rest with
            | nil =>
                simp only [List.length_cons, List.length_nil]
                norm_num
            | cons x1 rest2 =>
                have hlt : 1 < (x0 :: x1 :: rest2).length := by simp
                simp only [hlt, if_true, pyIndex, List.get?, except_ok_bind]
                have hx1 : safeOutcomeElem x1 = true := by
                  simp only [List.all_cons, Bool.and_eq_true] at h
                  exact h.2.1
                rcases safeElem_pyFloat hx1 with ⟨q1, hq1⟩ | hq1
                · rw [hq1]; exact Or.inl ⟨(q0, q1), rfl⟩
                · rw [hq1]; exact Or.inr rfl
          · rw [hq0]
            exact Or.inr rfl

theorem outcomes_parse_ok {v : PyVal} (h : outcomesOk v = true) :
    ∃ p, parse_outcome_prices v = Except.ok p := by
  unfold parse_outcome_prices
  unfold parse_outcome_prices_core
  cases v with
  | str s =>
      simp only [outcomesOk] at h
      cases hj : jsonLoads s with
      | none => exact ⟨(1/2, 1/2), by simp [hj, except_error_bind]⟩
      | some w =>
          rw [hj] at h
          cases w with
          | list xs =>
              rcases outcome_body_list_ok h with ⟨p, hp⟩ | hp
              · exact ⟨p, by simp [hj, except_ok_bind, hp]⟩
              · exact ⟨(1/2, 1/2), by simp [hj, except_ok_bind, hp]⟩
          | none =>
              exact ⟨(1/2, 1/2), by
                simp [hj, except_ok_bind, outcome_body_falsy (by rfl : truthy PyVal.none = false)]⟩
          | bool b =>
              simp only [Bool.not_eq_true', truthy] at h
              subst h
              exact ⟨(1/2, 1/2), by
                simp [hj, except_ok_bind,
                  outcome_body_falsy (by rfl : truthy (PyVal.bool false) = false)]⟩
          | num q =>
              have hq : truthy (PyVal.num q) = false := by
                simpa using h
              exact ⟨(1/2, 1/2), by simp [hj, except_ok_bind, outcome_body_falsy hq]⟩
          | str s2 =>
              have hq : truthy (PyVal.str s2) = false := by
                simpa using h
              exact ⟨(1/2, 1/2), by simp [hj, except_ok_bind, outcome_body_falsy hq]⟩
          | dict kvs =>
              have hq : truthy (PyVal.dict kvs) = false := by
                simpa using h
              exact ⟨(1/2, 1/2), by simp [hj, except_ok_bind, outcome_body_falsy hq]⟩
          | nonfinite => simp [truthy] at h
  | none =>
      exact ⟨(1/2, 1/2), by simp [except_ok_bind, truthy, outcome_body_nil]⟩
  | bool b =>
      simp only [outcomesOk, Bool.not_eq_true'] at h
      subst h
      exact ⟨(1/2, 1/2), by simp [except_ok_bind, truthy, outcome_body_nil]⟩
  | num q =>
      simp only [outcomesOk, decide_eq_true_eq] at h
      subst h
      have hq : truthy (PyVal.num 0) = false := by simp [truthy]
      exact ⟨(1/2, 1/2), by simp [except_ok_bind, hq, outcome_body_nil]⟩
  | list xs =>
      simp only [outcomesOk] at h
      cases ht : truthy (PyVal.list xs) with
      | false =>
          exact ⟨(1/2, 1/2), by simp [except_ok_bind, ht, outcome_body_nil]⟩
      | true =>
          have : (if truthy (PyVal.list xs) = true then PyVal.list xs else PyVal.list []) =
              PyVal.list xs := by simp [ht]
          rcases outcome_body_list_ok h with ⟨p, hp⟩ | hp
          · exact ⟨p, by simp [except_ok_bind, this, hp]⟩
          · exact ⟨(1/2, 1/2), by simp [except_ok_bind, this, hp]⟩
  | dict kvs =>
      simp only [outcomesOk] at h
      cases kvs with
      | nil => exact ⟨(1/2, 1/2), by simp [except_ok_bind, truthy, outcome_body_nil]⟩
      | cons kv rest => simp at h
  | nonfinite => simp [outcomesOk] at h

theorem resolve_prices_ok {market : PyDict}
    (h1 : optFloatOk (market.get "lastTradePrice") = true)
    (h2 : optFloatOk (market.get "bestBid") = true)
    (h3 : optFloatOk (market.get "bestAsk") = true)
    (h4 : outcomesOk (market.get "outcomePrices") = true) :
    ∃ p, resolve_prices market = Except.ok p := by
  unfold resolve_prices
  unfold optFloatOk at h1 h2 h3
  cases hlt : isNone (market.get "lastTradePrice") with
  | false =>
      rw [hlt] at h1
      simp only [Bool.false_or] at h1
      obtain ⟨q, hq⟩ := floatable_pyFloat h1
      exact ⟨(q, 1 - q), by simp [hlt, hq, except_ok_bind]⟩
  | true =>
      cases hbb : isNone (market.get "bestBid") with
      | false =>
          cases hba : isNone (market.get "bestAsk") with
          | false =>
              rw [hbb] at h2
              rw [hba] at h3
              simp only [Bool.false_or] at h2 h3
              obtain ⟨b, hb⟩ := floatable_pyFloat h2
              obtain ⟨a, ha⟩ := floatable_pyFloat h3
              refine ⟨((b + a) / 2, 1 - (b + a) / 2), ?_⟩
              simp [hlt, hbb, hba, hb, ha, except_ok_bind]
          | true =>
              cases hoc : truthy (market.get "outcomePrices") with
              | false => exact ⟨(1/2, 1/2), by simp [hlt, hbb, hba, hoc]⟩
              | true =>
                  obtain ⟨p, hp⟩ := outcomes_parse_ok h4
                  exact ⟨p, by simp [hlt, hbb, hba, hoc, hp]⟩
      | true =>
          cases hoc : truthy (market.get "outcomePrices") with
          | false => exact ⟨(1/2, 1/2), by simp [hlt, hbb, hoc]⟩
          | true =>
              obtain ⟨p, hp⟩ := outcomes_parse_ok h4
              exact ⟨p, by simp [hlt, hbb, hoc, hp]⟩

/-- C4: for every raw market and event record on which the normalizer
succeeds, the returned snapshot has `yes_price` clamped into
`[0.001, 0.999]`, and `no_price` is recomputed as `1 - yes_price` after the
clamp (overriding any separately parsed value), so the two sum to exactly 1. -/
theorem C4_price_invariants (market event : PyDict) (nowDay : ℤ) (s : Snapshot)
    (h : _parse_market market event nowDay = Except.ok s) :
    1/1000 ≤ s.yes_price ∧ s.yes_price ≤ 999/1000 ∧
      s.no_price = 1 - s.yes_price ∧ s.yes_price + s.no_price = 1 := by
  unfold _parse_market at h
  simp only [except_bind_ok, Except.ok.injEq] at h
  obtain ⟨p, hp, bb, hbb, ba, hba, lt, hlt, v, hv, v24, hv24, v1w, hv1w, liq, hliq,
    sp, hsp, c1h, hc1h, c1d, hc1d, c1w, hc1w, c1m, hc1m, cmp, hcmp, cc, hcc, hs⟩ := h
  subst hs
  refine ⟨le_max_left _ _, max_le (by norm_num) ?_, rfl, by ring⟩
  exact le_trans (min_le_left _ _) (by norm_num)


/-- Witness for C4: a concrete market whose last-trade price is 0.73
normalizes successfully and satisfies the price invariants. -/
theorem C4_price_invariants_witness :
    ∃ s, _parse_market [("lastTradePrice", PyVal.num (73/100))] [] 0 = Except.ok s ∧
      (1/1000 ≤ s.yes_price ∧ s.yes_price ≤ 999/1000 ∧
        s.no_price = 1 - s.yes_price ∧ s.yes_price + s.no_price = 1) := by
  obtain ⟨s, hs⟩ :
      ∃ s, _parse_market [("lastTradePrice", PyVal.num (73/100))] [] 0 = Except.ok s :=
    ⟨_, rfl⟩
  exact ⟨s, hs, C4_price_invariants _ _ _ s hs⟩

/-- C1 counterexample: on a market record whose `lastTradePrice` holds the
non-numeric string "abc", `_parse_market` raises a `ValueError` (from
`float(last_trade)`) instead of substituting a default; and on a record whose
`outcomePrices` is the JSON object string below, `json.loads` succeeds and
the integer subscript `outcome_prices[0]` into the string-keyed dict raises a
`KeyError` that the handler's `(ValueError, IndexError, JSONDecodeError)`
tuple does not catch.  Either way normalization of the market aborts. -/
theorem C1_counterexample :
    _parse_market [("lastTradePrice", PyVal.str "abc")] [] 0 =
      Except.error PyErr.valueError ∧
    _parse_market [("outcomePrices", PyVal.str "\x7b\"a\": 1\x7d")] [] 0 =
      Except.error PyErr.keyError := by
  exact ⟨rfl, rfl⟩

/-- C1 amended: the normalizer completes without raising whenever each
numeric field is absent, `None`-or-falsy, or of a type `float()`/`int()`
accepts (numbers, booleans, numeric strings), and `outcomePrices` is falsy, a
list of numbers/strings/booleans, or a JSON string that fails to decode
(`JSONDecodeError` is caught) or decodes to something falsy or to such a
list.  Outside those conditions normalization can abort: a truthy non-numeric
string in a `float()`-converted field raises `ValueError`, an `outcomePrices`
decoding to a non-empty JSON object raises an uncaught `KeyError`, and one
decoding to `Infinity`/`NaN` raises an uncaught `TypeError`. -/
theorem C1_amended (market event : PyDict) (nowDay : ℤ)
    (h1 : optFloatOk (market.get "lastTradePrice") = true)
    (h2 : optFloatOk (market.get "bestBid") = true)
    (h3 : optFloatOk (market.get "bestAsk") = true)
    (h4 : outcomesOk (market.get "outcomePrices") = true)
    (h5 : orFloatOk (market.get "volume") = true)
    (h6 : orFloatOk (market.get "volume24hr") = true)
    (h7 : orFloatOk (market.get "volume1wk") = true)
    (h8 : orFloatOk (market.get "liquidity") = true)
    (h9 : orFloatOk (market.get "spread") = true)
    (h10 : orFloatOk (market.get "oneHourPriceChange") = true)
    (h11 : orFloatOk (market.get "oneDayPriceChange") = true)
    (h12 : orFloatOk (market.get "oneWeekPriceChange") = true)
    (h13 : orFloatOk (market.get "oneMonthPriceChange") = true)
    (h14 : orFloatOk (market.get "competitive") = true)
    (h15 : orIntOk (event.get "commentCount") = true) :
    ∃ s, _parse_market market event nowDay = Except.ok s := by
  obtain ⟨p, hp⟩ := resolve_prices_ok h1 h2 h3 h4
  obtain ⟨obb, hobb⟩ := optFloat_ok h2
  obtain ⟨oba, hoba⟩ := optFloat_ok h3
  obtain ⟨olt, holt⟩ := optFloat_ok h1
  obtain ⟨v, hv⟩ := orFloat_ok h5
  obtain ⟨v24, hv24⟩ := orFloat_ok h6
  obtain ⟨v1w, hv1w⟩ := orFloat_ok h7
  obtain ⟨liq, hliq⟩ := orFloat_ok h8
  obtain ⟨sp, hsp⟩ := orFloat_ok h9
  obtain ⟨c1h, hc1h⟩ := orFloat_ok h10
  obtain ⟨c1d, hc1d⟩ := orFloat_ok h11
  obtain ⟨c1w, hc1w⟩ := orFloat_ok h12
  obtain ⟨c1m, hc1m⟩ := orFloat_ok h13
  obtain ⟨cmp, hcmp⟩ := orFloat_ok h14
  obtain ⟨cc, hcc⟩ := orInt_ok h15
  cases hres : _parse_market market event nowDay with
  | ok s => exact ⟨s, rfl⟩
  | error e =>
      unfold _parse_market at hres
      rw [hp, except_ok_bind, hobb, except_ok_bind, hoba, except_ok_bind, holt, except_ok_bind,
        hv, except_ok_bind, hv24, except_ok_bind, hv1w, except_ok_bind, hliq, except_ok_bind,
        hsp, except_ok_bind, hc1h, except_ok_bind, hc1d, except_ok_bind, hc1w, except_ok_bind,
        hc1m, except_ok_bind, hcmp, except_ok_bind, hcc, except_ok_bind] at hres
      exact absurd hres (by simp)

/-- Witness for C1's amended statement: a record mixing present numeric
strings, numbers and absent fields normalizes successfully. -/
theorem C1_amended_witness :
    ∃ s, _parse_market
      [("lastTradePrice", PyVal.str "0.73"), ("volume", PyVal.str "12.5"),
        ("volume24hr", PyVal.num 150), ("spread", PyVal.none)]
      [("commentCount", PyVal.num 7), ("featured", PyVal.bool true)] 5 = Except.ok s := by
  exact C1_amended _ _ 5 (by rfl) (by rfl) (by rfl) (by rfl) (by rfl) (by rfl) (by rfl)
    (by rfl) (by rfl) (by rfl) (by rfl) (by rfl) (by rfl) (by rfl) (by rfl)

/-! ## Rounding bounds -/

theorem roundHalfEven_nonneg {q : ℚ} (h : 0 ≤ q) : 0 ≤ roundHalfEven q := by
  unfold roundHalfEven
  have hf : (0 : ℤ) ≤ ⌊q⌋ := Int.floor_nonneg.mpr h
  split
  · exact hf
  · split
    · omega
    · split <;> omega

theorem roundHalfEven_le {q : ℚ} {B : ℤ} (h : q ≤ (B : ℚ)) : roundHalfEven q ≤ B := by
  unfold roundHalfEven
  have hfB : ⌊q⌋ ≤ B := by
    have := Int.floor_le_floor h
    simpa using this
  have hflo : (⌊q⌋ : ℚ) ≤ q := Int.floor_le q
  split
  · exact hfB
  · next h1 =>
      split
      · next h2 =>
          have hlt : ⌊q⌋ < B := by
            have : (⌊q⌋ : ℚ) < (B : ℚ) := by linarith
            exact_mod_cast this
          omega
      · next h2 =>
          have hge : (1 : ℚ)/2 ≤ q - (⌊q⌋ : ℚ) := le_of_not_lt h1
          have hlt : ⌊q⌋ < B := by
            have : (⌊q⌋ : ℚ) < (B : ℚ) := by linarith
            exact_mod_cast this
          split <;> omega

theorem roundHalfEven_intCast (z : ℤ) : roundHalfEven ((z : ℚ)) = z := by
  unfold roundHalfEven
  rw [Int.floor_intCast]
  simp

theorem roundTo1_bounds {q : ℚ} (h0 : 0 ≤ q) (h1 : q ≤ 100) :
    0 ≤ roundTo 1 q ∧ roundTo 1 q ≤ 100 := by
  unfold roundTo
  have hlo : 0 ≤ roundHalfEven (q * (10 : ℚ) ^ 1) := by
    apply roundHalfEven_nonneg
    positivity
  have hhi : roundHalfEven (q * (10 : ℚ) ^ 1) ≤ (1000 : ℤ) := by
    apply roundHalfEven_le
    push_cast
    nlinarith
  constructor
  · apply div_nonneg _ (by norm_num)
    exact_mod_cast hlo
  · rw [div_le_iff₀ (by norm_num)]
    have : ((roundHalfEven (q * (10 : ℚ) ^ 1) : ℤ) : ℚ) ≤ ((1000 : ℤ) : ℚ) := by
      exact_mod_cast hhi
    push_cast at this ⊢
    linarith

/-! ## Factor score bounds -/

theorem momentum_score_bounds (inp : ScoreInputs) :
    0 ≤ momentum_score inp ∧ momentum_score inp ≤ 100 := by
  unfold momentum_score
  constructor
  · apply le_min (by norm_num)
    positivity
  · exact min_le_left _ _

theorem log_factor_bounds {log10 : ℚ → ℚ} (hlog : ∀ x : ℚ, 1 ≤ x → 0 ≤ log10 x)
    (v k : ℚ) (hk : 0 ≤ k) :
    0 ≤ min 100 (log10 (max 1 v) * k) ∧ min 100 (log10 (max 1 v) * k) ≤ 100 := by
  constructor
  · apply le_min (by norm_num)
    exact mul_nonneg (hlog _ (le_max_left _ _)) hk
  · exact min_le_left _ _

theorem spread_score_bounds (inp : ScoreInputs) (hspread : 0 ≤ inp.spread) :
    0 ≤ spread_score inp ∧ spread_score inp ≤ 100 := by
  unfold spread_score
  constructor
  · exact le_max_left _ _
  · apply max_le (by norm_num)
    nlinarith

theorem uncertainty_score_bounds (inp : ScoreInputs)
    (h0 : 0 ≤ inp.price) (h1 : inp.price ≤ 1) :
    0 ≤ uncertainty_score inp ∧ uncertainty_score inp ≤ 100 := by
  unfold uncertainty_score
  have habs : |inp.price - 0.5| ≤ 1/2 := by
    rw [abs_le]
    constructor <;> [linarith; linarith]
  have hnn : 0 ≤ |inp.price - 0.5| := abs_nonneg _
  constructor <;> nlinarith

theorem timing_score_bounds (inp : ScoreInputs) :
    0 ≤ timing_score inp ∧ timing_score inp ≤ 100 := by
  unfold timing_score
  split
  · norm_num
  · split_ifs <;> norm_num

theorem engagement_score_bounds {log10 : ℚ → ℚ} (hlog : ∀ x : ℚ, 1 ≤ x → 0 ≤ log10 x)
    (inp : ScoreInputs) :
    0 ≤ engagement_score log10 inp ∧ engagement_score log10 inp ≤ 100 := by
  unfold engagement_score
  have he := log_factor_bounds hlog (inp.comment_count : ℚ) 30 (by norm_num)
  split
  · constructor
    · apply le_min (by norm_num)
      linarith [he.1]
    · exact min_le_left _ _
  · exact he

/-- C3 counterexample: at a market whose extracted price is 2 (every other
field at its extraction default), the scorer's uncertainty factor is -200,
outside [0, 100]: the uncertainty score has no clamp (and the spread score no
upper clamp), refuting the claim that every factor lands in [0, 100] for
every input. -/
theorem C3_counterexample :
    (score_breakdown log10Q outOfRangeInput).uncertainty = -200 ∧
      ¬ (0 ≤ (score_breakdown log10Q outOfRangeInput).uncertainty ∧
          (score_breakdown log10Q outOfRangeInput).uncertainty ≤ 100) := by
  have hunc : uncertainty_score outOfRangeInput = -200 := by
    unfold uncertainty_score outOfRangeInput
    rw [show ((2 : ℚ) - 0.5) = 1.5 by norm_num, abs_of_pos (by norm_num : (0 : ℚ) < 1.5)]
    norm_num
  have h2 : (score_breakdown log10Q outOfRangeInput).uncertainty = -200 := by
    simp only [score_breakdown]
    rw [hunc]
    unfold roundTo
    rw [show ((-200 : ℚ) * (10 : ℚ) ^ (1 : ℕ)) = ((-2000 : ℤ) : ℚ) by norm_num,
      roundHalfEven_intCast]
    norm_num
  refine ⟨h2, ?_⟩
  intro hcontra
  have h1 := hcontra.1
  rw [h2] at h1
  norm_num at h1

/-- C3 amended: momentum, volume, liquidity, timing and engagement always lie
in [0, 100] (needing only that log10 is nonnegative on [1, ∞)); the spread
factor is clamped below only and lies in [0, 100] provided the extracted
spread is nonnegative; the uncertainty factor has no clamp and lies in
[0, 100] provided the extracted price is in [0, 1].  Under those in-range
conditions every one of the seven (one-decimal rounded) factor scores lies in
[0, 100]. -/
theorem C3_amended (log10 : ℚ → ℚ) (hlog : ∀ x : ℚ, 1 ≤ x → 0 ≤ log10 x)
    (inp : ScoreInputs) (hspread : 0 ≤ inp.spread)
    (hp0 : 0 ≤ inp.price) (hp1 : inp.price ≤ 1) :
    (0 ≤ (score_breakdown log10 inp).momentum ∧ (score_breakdown log10 inp).momentum ≤ 100) ∧
    (0 ≤ (score_breakdown log10 inp).volume ∧ (score_breakdown log10 inp).volume ≤ 100) ∧
    (0 ≤ (score_breakdown log10 inp).liquidity ∧ (score_breakdown log10 inp).liquidity ≤ 100) ∧
    (0 ≤ (score_breakdown log10 inp).spread ∧ (score_breakdown log10 inp).spread ≤ 100) ∧
    (0 ≤ (score_breakdown log10 inp).uncertainty ∧
      (score_breakdown log10 inp).uncertainty ≤ 100) ∧
    (0 ≤ (score_breakdown log10 inp).timing ∧ (score_breakdown log10 inp).timing ≤ 100) ∧
    (0 ≤ (score_breakdown log10 inp).engagement ∧
      (score_breakdown log10 inp).engagement ≤ 100) := by
  unfold score_breakdown
  have hm := momentum_score_bounds inp
  have hv := log_factor_bounds hlog inp.volume_24h 15 (by norm_num)
  have hl := log_factor_bounds hlog inp.liquidity 15 (by norm_num)
  have hs := spread_score_bounds inp hspread
  have hu := uncertainty_score_bounds inp hp0 hp1
  have ht := timing_score_bounds inp
  have he := engagement_score_bounds hlog inp
  have hv2 : 0 ≤ volume_score log10 inp ∧ volume_score log10 inp ≤ 100 := hv
  have hl2 : 0 ≤ liquidity_score log10 inp ∧ liquidity_score log10 inp ≤ 100 := hl
  exact ⟨⟨(roundTo1_bounds hm.1 hm.2).1, (roundTo1_bounds hm.1 hm.2).2⟩,
    ⟨(roundTo1_bounds hv2.1 hv2.2).1, (roundTo1_bounds hv2.1 hv2.2).2⟩,
    ⟨(roundTo1_bounds hl2.1 hl2.2).1, (roundTo1_bounds hl2.1 hl2.2).2⟩,
    ⟨(roundTo1_bounds hs.1 hs.2).1, (roundTo1_bounds hs.1 hs.2).2⟩,
    ⟨(roundTo1_bounds hu.1 hu.2).1, (roundTo1_bounds hu.1 hu.2).2⟩,
    ⟨(roundTo1_bounds ht.1 ht.2).1, (roundTo1_bounds ht.1 ht.2).2⟩,
    ⟨(roundTo1_bounds he.1 he.2).1, (roundTo1_bounds he.1 he.2).2⟩⟩

/-- Witness for C3's amended statement at a concrete in-range input. -/
theorem C3_amended_witness :
    0 ≤ (score_breakdown log10Q
      { price := 0.4, volume_24h := 1000, volume_1w := 5000, liquidity := 100,
        spread := 0.02, competitive := 0, change_1h := 0, change_24h := 0.1,
        change_1w := 0.05, change_1m := 0, comment_count := 12, is_featured := true,
        days_until_resolution := Option.some 10 }).uncertainty ∧
    (score_breakdown log10Q
      { price := 0.4, volume_24h := 1000, volume_1w := 5000, liquidity := 100,
        spread := 0.02, competitive := 0, change_1h := 0, change_24h := 0.1,
        change_1w := 0.05, change_1m := 0, comment_count := 12, is_featured := true,
        days_until_resolution := Option.some 10 }).uncertainty ≤ 100 := by
  have hlog : ∀ x : ℚ, 1 ≤ x → 0 ≤ log10Q x := by
    intro x hx
    unfold log10Q
    positivity
  exact (C3_amended log10Q hlog _ (by norm_num) (by norm_num) (by norm_num)).2.2.2.2.1

/-! ## Rate limiter (C6) -/

theorem sorted_dropWhile_eq_filter {l : List ℚ} {c : ℚ} (hs : List.Sorted (· ≤ ·) l) :
    l.dropWhile (fun t => decide (t < c)) = l.filter (fun t => decide (c ≤ t)) := by
  induction l with
  | nil => rfl
  | cons x xs ih =>
      rw [List.sorted_cons] at hs
      by_cases hx : x < c
      · rw [List.dropWhile_cons_of_pos (by simpa using hx),
          List.filter_cons_of_neg (by simpa using not_le.mpr hx)]
        exact ih hs.2
      · push_neg at hx
        rw [List.dropWhile_cons_of_neg (by simpa using not_lt.mpr hx),
          List.filter_cons_of_pos (by simpa using hx)]
        rw [List.filter_eq_self.mpr fun a ha => by
          simpa using le_trans hx (hs.1 a ha)]

theorem rate_iter_code : ∀ k : ℕ,
    (fun r => (check_rate_limit r 0 101 60).2)^[k] [] = List.replicate (min k 100) (0 : ℚ) := by
  intro k
  induction k with
  | zero => simp
  | succ k ih =>
      rw [Function.iterate_succ_apply', ih]
      have hdw : (List.replicate (min k 100) (0 : ℚ)).dropWhile
          (fun t => decide (t < 0 - 60)) = List.replicate (min k 100) (0 : ℚ) := by
        rw [List.dropWhile_replicate]
        have : ¬ ((0 : ℚ) < 0 - 60) := by norm_num
        simp [this]
      simp only [check_rate_limit, hdw, List.length_replicate]
      have hle : ¬ (101 ≤ min k 100) := by omega
      simp only [hle, if_false]
      unfold dequeAppend
      rw [← List.replicate_succ' (min k 100) (0 : ℚ)]
      simp only [List.length_replicate]
      rcases le_or_lt 100 k with hk | hk
      · have h1 : min k 100 = 100 := by omega
        have h2 : min (k + 1) 100 = 100 := by omega
        rw [h1, h2, show (100 + 1 - 100 : ℕ) = 1 by omega, List.replicate_succ]
        simp
      · have h1 : min k 100 = k := by omega
        have h2 : min (k + 1) 100 = k + 1 := by omega
        rw [h1, h2, show (k + 1 - 100 : ℕ) = 0 by omega, List.drop_zero]

theorem rate_iter_claim : ∀ k : ℕ,
    (fun r => (claimRateCheck r 0 101 60).2)^[k] [] = List.replicate (min k 101) (0 : ℚ) := by
  intro k
  induction k with
  | zero => simp
  | succ k ih =>
      rw [Function.iterate_succ_apply', ih]
      have hf : (List.replicate (min k 101) (0 : ℚ)).filter
          (fun t => decide (0 - 60 ≤ t)) = List.replicate (min k 101) (0 : ℚ) := by
        apply List.filter_replicate_of_pos
        simp only [decide_eq_true_eq]
        norm_num
      simp only [claimRateCheck, hf, List.length_replicate]
      rcases le_or_lt 101 k with hk | hk
      · have h2 : min (k + 1) 101 = 101 := by omega
        have hnlt : ¬ (min k 101 < 101) := by omega
        simp only [hnlt, if_false]
        rw [show min k 101 = 101 by omega, h2]
      · have hlt : min k 101 < 101 := by omega
        simp only [hlt, if_true]
        rw [show min k 101 = k by omega, show min (k + 1) 101 = k + 1 by omega,
          List.replicate_succ' k (0 : ℚ)]

/-- C6 counterexample: with `max_requests = 101` and 101 prior admissions at
time 0 (window 60), the deque's `maxlen=100` has silently evicted an
in-window timestamp, so the code admits a 102nd request while the claim's
admission rule (evict only expired entries, admit iff the remaining count is
below the limit) rejects it. -/
theorem C6_counterexample :
    (check_rate_limit ((fun r => (check_rate_limit r 0 101 60).2)^[101] []) 0 101 60).1 = true ∧
    (claimRateCheck ((fun r => (claimRateCheck r 0 101 60).2)^[101] []) 0 101 60).1 = false := by
  rw [rate_iter_code 101, rate_iter_claim 101]
  constructor
  · have hdw : (List.replicate (min 101 100) (0 : ℚ)).dropWhile
        (fun t => decide (t < 0 - 60)) = List.replicate (min 101 100) (0 : ℚ) := by
      rw [List.dropWhile_replicate]
      have : ¬ ((0 : ℚ) < 0 - 60) := by norm_num
      simp [this]
    simp only [check_rate_limit, hdw, List.length_replicate]
    norm_num
  · have hf : (List.replicate (min 101 101) (0 : ℚ)).filter
        (fun t => decide (0 - 60 ≤ t)) = List.replicate (min 101 101) (0 : ℚ) := by
      apply List.filter_replicate_of_pos
      simp only [decide_eq_true_eq]
      norm_num
    simp only [claimRateCheck, hf, List.length_replicate]
    norm_num

/-- C6 amended: for every `max_requests ≤ 100` (which covers the configured
limits, 5 for analyze and 30 for markets), every window and every
chronologically ordered record, one admission attempt behaves exactly as the
claim states: expired timestamps are evicted from the front, the request is
admitted and its timestamp recorded iff the remaining count is strictly below
`max_requests`.  (For `max_requests > 100` the deque's `maxlen=100` can evict
in-window entries, see the counterexample.)  Consequently, with
`max_requests = 5, window_seconds = 60`, attempts at times 0..4 are admitted,
a 6th at time 5 is denied, and an attempt at time 70 is admitted again. -/
theorem C6_amended (requests : List ℚ) (now window : ℚ) (max_requests : ℕ)
    (hmax : max_requests ≤ 100) (hs : List.Sorted (· ≤ ·) requests) :
    check_rate_limit requests now max_requests window =
      claimRateCheck requests now max_requests window ∧
    runRateAttempts [0, 1, 2, 3, 4, 5, 70] 5 60 =
      ([true, true, true, true, true, false, true], [70]) := by
  constructor
  · simp only [check_rate_limit, claimRateCheck]
    rw [sorted_dropWhile_eq_filter hs]
    rcases lt_or_ge (requests.filter (fun t => decide (now - window ≤ t))).length
        max_requests with hlt | hge
    · have h1 : ¬ (max_requests ≤
          (requests.filter (fun t => decide (now - window ≤ t))).length) := by omega
      simp only [h1, if_false, hlt, if_true]
      unfold dequeAppend
      simp only [List.length_append, List.length_cons, List.length_nil]
      rw [show (requests.filter (fun t => decide (now - window ≤ t))).length + (0 + 1) - 100
          = 0 by omega, List.drop_zero]
    · have h1 : max_requests ≤
          (requests.filter (fun t => decide (now - window ≤ t))).length := hge
      have h2 : ¬ ((requests.filter (fun t => decide (now - window ≤ t))).length
          < max_requests) := by omega
      simp only [h1, if_true, h2, if_false]
  · norm_num [runRateAttempts, check_rate_limit, dequeAppend, List.dropWhile]

/-- Witness for C6's amended statement on a concrete ordered record. -/
theorem C6_amended_witness :
    check_rate_limit [10, 20, 30] 70 5 60 = claimRateCheck [10, 20, 30] 70 5 60 ∧
    runRateAttempts [0, 1, 2, 3, 4, 5, 70] 5 60 =
      ([true, true, true, true, true, false, true], [70]) :=
  C6_amended [10, 20, 30] 70 60 5 (by norm_num)
    (by norm_num [List.sorted_cons])

/-! ## Ledger placement (C2, C9) -/

theorem roundHalfEven_ge {q : ℚ} {B : ℤ} (h : (B : ℚ) ≤ q) : B ≤ roundHalfEven q := by
  unfold roundHalfEven
  have hf : B ≤ ⌊q⌋ := Int.le_floor.mpr h
  split
  · exact hf
  · split
    · omega
    · split <;> omega

theorem roundTo_int (n : ℕ) (z : ℤ) : roundTo n ((z : ℚ)) = (z : ℚ) := by
  unfold roundTo
  rw [show ((z : ℚ) * (10 : ℚ) ^ n) = ((z * (10 : ℤ) ^ n : ℤ) : ℚ) by push_cast; ring,
    roundHalfEven_intCast]
  push_cast
  rw [mul_div_assoc, div_self (by positivity), mul_one]

theorem one_le_roundTo2 {q : ℚ} (h : 1 ≤ q) : 1 ≤ roundTo 2 q := by
  unfold roundTo
  rw [le_div_iff₀ (by positivity)]
  have hle : ((100 : ℤ) : ℚ) ≤ q * (10 : ℚ) ^ (2 : ℕ) := by push_cast; nlinarith
  have h2 := roundHalfEven_ge hle
  have h3 : ((100 : ℤ) : ℚ) ≤ ((roundHalfEven (q * (10 : ℚ) ^ (2 : ℕ)) : ℤ) : ℚ) := by
    exact_mod_cast h2
  push_cast at h3 ⊢
  linarith

theorem validate_low_amount {r : SimulateTradeRequest} (hlt : r.amount < 1) :
    validate_simulate_request r = Except.error (PlaceError.validationError "amount") := by
  unfold validate_simulate_request
  by_cases hA : 0 < r.amount ∧ r.amount ≤ 1000000
  · rw [if_neg (not_not_intro hA), if_pos hlt]
  · rw [if_pos hA]

theorem validate_bad_direction {r : SimulateTradeRequest} (h1 : 1 ≤ r.amount)
    (h2 : r.amount ≤ 1000000) (hy : r.direction ≠ "YES") (hn : r.direction ≠ "NO") :
    validate_simulate_request r = Except.error (PlaceError.validationError "direction") := by
  unfold validate_simulate_request
  rw [if_neg (not_not_intro ⟨by linarith, h2⟩), if_neg (not_lt.mpr h1), if_pos]
  intro hc
  rcases hc with hc | hc
  · exact hy hc
  · exact hn hc

theorem validate_ok {r : SimulateTradeRequest} (h1 : 1 ≤ r.amount)
    (h2 : r.amount ≤ 1000000) (hd : r.direction = "YES" ∨ r.direction = "NO")
    (hp0 : 0 ≤ r.price) (hp1 : r.price ≤ 1) :
    validate_simulate_request r = Except.ok { r with amount := roundTo 2 r.amount } := by
  unfold validate_simulate_request
  rw [if_neg (not_not_intro ⟨by linarith, h2⟩), if_neg (not_lt.mpr h1),
    if_neg (not_not_intro hd), if_neg (not_not_intro ⟨hp0, hp1⟩)]

theorem place_low_amount (r : SimulateTradeRequest) (st : LedgerState) (hlt : r.amount < 1) :
    place_trade r st = (Except.error (PlaceError.validationError "amount"), st) := by
  unfold place_trade
  rw [validate_low_amount hlt]

theorem place_bad_direction (r : SimulateTradeRequest) (st : LedgerState)
    (h1 : 1 ≤ r.amount) (h2 : r.amount ≤ 1000000)
    (hy : r.direction ≠ "YES") (hn : r.direction ≠ "NO") :
    place_trade r st = (Except.error (PlaceError.validationError "direction"), st) := by
  unfold place_trade
  rw [validate_bad_direction h1 h2 hy hn]

theorem place_insufficient (r : SimulateTradeRequest) (st : LedgerState) (b : ℚ)
    (hb : st.portfolio = Option.some b) (h1 : 1 ≤ r.amount) (h2 : r.amount ≤ 1000000)
    (hd : r.direction = "YES" ∨ r.direction = "NO") (hp0 : 0 ≤ r.price) (hp1 : r.price ≤ 1)
    (hbal : b < roundTo 2 r.amount) :
    place_trade r st = (Except.error PlaceError.insufficientBalance, st) := by
  unfold place_trade
  rw [validate_ok h1 h2 hd hp0 hp1]
  dsimp only
  unfold simulate_trade
  rw [hb]
  dsimp only
  have hpos : 1 ≤ roundTo 2 r.amount := one_le_roundTo2 h1
  rw [if_neg (show ¬ (roundTo 2 r.amount ≤ 0) by intro hc; linarith),
    if_pos hbal]

theorem place_success (r : SimulateTradeRequest) (st : LedgerState) (b : ℚ)
    (hb : st.portfolio = Option.some b) (h1 : 1 ≤ r.amount) (h2 : r.amount ≤ 1000000)
    (hd : r.direction = "YES" ∨ r.direction = "NO") (hp0 : 0 ≤ r.price) (hp1 : r.price ≤ 1)
    (hbal : roundTo 2 r.amount ≤ b) :
    ∃ t : Trade,
      place_trade r st =
        (Except.ok t,
          { portfolio := Option.some (b - roundTo 2 r.amount),
            trades := st.trades ++ [t] }) ∧
      t.status = TradeStatus.ACTIVE ∧ t.entry_price = Option.some r.price ∧
      t.current_price = Option.some r.price ∧ t.amount = roundTo 2 r.amount := by
  unfold place_trade
  rw [validate_ok h1 h2 hd hp0 hp1]
  dsimp only
  unfold simulate_trade
  rw [hb]
  dsimp only
  have hpos : 1 ≤ roundTo 2 r.amount := one_le_roundTo2 h1
  rw [if_neg (show ¬ (roundTo 2 r.amount ≤ 0) by intro hc; linarith),
    if_neg (not_lt.mpr hbal),
    if_neg (not_not_intro hd)]
  exact ⟨_, rfl, rfl, rfl, rfl, rfl⟩

/-- C2: on the full placement path (pydantic request validation, then the
handler), an amount below the $1 minimum — in particular any amount ≤ 0 —
fails as an invalid amount; a direction other than YES/NO fails as an invalid
direction; a valid request whose (2-decimal-rounded) amount exceeds the
balance fails with insufficient balance; every failure leaves the ledger
state unchanged.  A valid affordable request debits the balance by exactly
the trade amount (computed as `balance - amount`) and appends exactly one new
ACTIVE trade with `entry_price = current_price = price`.  Consequently two
$60 placements against a $100 balance: the first succeeds leaving $40 and
one trade; the second fails with insufficient balance and changes nothing. -/
theorem C2_trade_placement :
    (∀ (r : SimulateTradeRequest) (st : LedgerState), r.amount ≤ 0 →
      place_trade r st = (Except.error (PlaceError.validationError "amount"), st)) ∧
    (∀ (r : SimulateTradeRequest) (st : LedgerState),
      1 ≤ r.amount → r.amount ≤ 1000000 → r.direction ≠ "YES" → r.direction ≠ "NO" →
      place_trade r st = (Except.error (PlaceError.validationError "direction"), st)) ∧
    (∀ (r : SimulateTradeRequest) (st : LedgerState) (b : ℚ),
      st.portfolio = Option.some b → 1 ≤ r.amount → r.amount ≤ 1000000 →
      (r.direction = "YES" ∨ r.direction = "NO") → 0 ≤ r.price → r.price ≤ 1 →
      b < roundTo 2 r.amount →
      place_trade r st = (Except.error PlaceError.insufficientBalance, st)) ∧
    (∀ (r : SimulateTradeRequest) (st : LedgerState) (b : ℚ),
      st.portfolio = Option.some b → 1 ≤ r.amount → r.amount ≤ 1000000 →
      (r.direction = "YES" ∨ r.direction = "NO") → 0 ≤ r.price → r.price ≤ 1 →
      roundTo 2 r.amount ≤ b →
      ∃ t : Trade,
        place_trade r st =
          (Except.ok t,
            { portfolio := Option.some (b - roundTo 2 r.amount),
              trades := st.trades ++ [t] }) ∧
        t.status = TradeStatus.ACTIVE ∧ t.entry_price = Option.some r.price ∧
        t.current_price = Option.some r.price ∧ t.amount = roundTo 2 r.amount) ∧
    (∃ t1 : Trade,
      place_trade
        { market_id := "m", market_question := "q", amount := 60
          direction := "YES", price := 1/2 }
        { portfolio := Option.some 100, trades := [] } =
        (Except.ok t1, { portfolio := Option.some 40, trades := [t1] })) ∧
    (∀ t1 : Trade,
      place_trade
        { market_id := "m", market_question := "q", amount := 60
          direction := "YES", price := 1/2 }
        { portfolio := Option.some 40, trades := [t1] } =
        (Except.error PlaceError.insufficientBalance,
          { portfolio := Option.some 40, trades := [t1] })) := by
  have h60 : roundTo 2 (60 : ℚ) = 60 := by
    have := roundTo_int 2 60
    push_cast at this
    exact this
  refine ⟨?_, ?_, ?_, ?_, ?_, ?_⟩
  · intro r st h0
    exact place_low_amount r st (by linarith)
  · intro r st h1 h2 hy hn
    exact place_bad_direction r st h1 h2 hy hn
  · intro r st b hb h1 h2 hd hp0 hp1 hbal
    exact place_insufficient r st b hb h1 h2 hd hp0 hp1 hbal
  · intro r st b hb h1 h2 hd hp0 hp1 hbal
    exact place_success r st b hb h1 h2 hd hp0 hp1 hbal
  · obtain ⟨t, ht, hrest⟩ :=
      place_success
        { market_id := "m", market_question := "q", amount := 60
          direction := "YES", price := 1/2 }
        { portfolio := Option.some 100, trades := [] } 100 rfl
        (by norm_num) (by norm_num) (Or.inl rfl) (by norm_num) (by norm_num)
        (by dsimp only; rw [h60]; norm_num)
    refine ⟨t, ?_⟩
    rw [ht]
    dsimp only
    rw [h60]
    norm_num
  · intro t1
    exact place_insufficient _ _ 40 rfl (by norm_num) (by norm_num) (Or.inl rfl)
      (by norm_num) (by norm_num) (by dsimp only; rw [h60]; norm_num)

/-- Witness for C2 at concrete inputs: a zero-amount request fails as an
invalid amount with the state untouched, and an unaffordable $60 request
against a $40 balance fails with insufficient balance. -/
theorem C2_trade_placement_witness :
    place_trade
      { market_id := "m", market_question := "q", amount := 0
        direction := "YES", price := 1/2 }
      { portfolio := Option.some 10, trades := [] } =
      (Except.error (PlaceError.validationError "amount"),
        { portfolio := Option.some 10, trades := [] }) ∧
    place_trade
      { market_id := "m", market_question := "q", amount := 60
        direction := "YES", price := 1/2 }
      { portfolio := Option.some 40, trades := [] } =
      (Except.error PlaceError.insufficientBalance,
        { portfolio := Option.some 40, trades := [] }) := by
  constructor
  · exact C2_trade_placement.1 _ _ (by norm_num)
  · apply C2_trade_placement.2.2.1 _ _ 40 rfl (by norm_num) (by norm_num) (Or.inl rfl)
      (by norm_num) (by norm_num)
    have h60 : roundTo 2 (60 : ℚ) = 60 := by
      have := roundTo_int 2 60
      push_cast at this
      exact this
    dsimp only
    rw [h60]
    norm_num

/-- C9 counterexample: the schema declares `price` with `ge=0.0, le=1.0`, so
a placement request with `price = 0` — outside the claimed `(0, 1]` — passes
validation and creates a trade (with `entry_price = 0`) instead of failing. -/
theorem C9_counterexample :
    ∃ t : Trade,
      place_trade
        { market_id := "m", market_question := "q", amount := 100
          direction := "YES", price := 0 }
        { portfolio := Option.some 1000, trades := [] } =
        (Except.ok t,
          { portfolio := Option.some 900, trades := [t] }) ∧
      t.entry_price = Option.some 0 := by
  have h100 : roundTo 2 (100 : ℚ) = 100 := by
    have := roundTo_int 2 100
    push_cast at this
    exact this
  obtain ⟨t, ht, hstat, hep, hcp, ham⟩ :=
    place_success
      { market_id := "m", market_question := "q", amount := 100
        direction := "YES", price := 0 }
      { portfolio := Option.some 1000, trades := [] } 1000 rfl
      (by norm_num) (by norm_num) (Or.inl rfl) (by norm_num) (by norm_num)
      (by dsimp only; rw [h100]; norm_num)
  refine ⟨t, ?_, hep⟩
  rw [ht]
  dsimp only
  rw [h100]
  norm_num

/-- C9 amended: validation accepts any `price` in the closed interval
`[0, 1]` (so `price = 0` is accepted and creates a trade); a request whose
price lies outside `[0, 1]` fails with a pydantic validation error on some
field and creates no trade. -/
theorem C9_amended (r : SimulateTradeRequest) (st : LedgerState)
    (hp : r.price < 0 ∨ 1 < r.price) :
    ∃ f, place_trade r st = (Except.error (PlaceError.validationError f), st) := by
  unfold place_trade validate_simulate_request
  by_cases hA : 0 < r.amount ∧ r.amount ≤ 1000000
  · rw [if_neg (not_not_intro hA)]
    by_cases h1 : r.amount < 1
    · rw [if_pos h1]
      exact ⟨"amount", rfl⟩
    · rw [if_neg h1]
      by_cases hD : r.direction = "YES" ∨ r.direction = "NO"
      · rw [if_neg (not_not_intro hD), if_pos]
        · exact ⟨"price", rfl⟩
        · intro hc
          rcases hp with hp | hp
          · exact absurd hc.1 (not_le.mpr hp)
          · exact absurd hc.2 (not_le.mpr hp)
      · rw [if_pos hD]
        exact ⟨"direction", rfl⟩
  · rw [if_pos hA]
    exact ⟨"amount", rfl⟩

/-- Witness for C9's amended statement: a request with `price = 2` fails
validation and leaves the ledger unchanged. -/
theorem C9_amended_witness :
    ∃ f, place_trade
      { market_id := "m", market_question := "q", amount := 50
        direction := "YES", price := 2 }
      { portfolio := Option.some 100, trades := [] } =
      (Except.error (PlaceError.validationError f),
        { portfolio := Option.some 100, trades := [] }) :=
  C9_amended _ _ (Or.inr (by norm_num))

/-! ## Portfolio PnL (C7, C10) -/

theorem mapM_ok_mem {α β : Type} {f : α → Except PyErr β} :
    ∀ {xs : List α} {ys : List β}, xs.mapM f = Except.ok ys →
      ∀ y ∈ ys, ∃ x ∈ xs, f x = Except.ok y := by
  intro xs
  induction xs with
  | nil =>
      intro ys h y hy
      simp only [List.mapM_nil, pure, Except.pure, Except.ok.injEq] at h
      subst h
      simp at hy
  | cons x xs ih =>
      intro ys h y hy
      rw [List.mapM_cons] at h
      simp only [except_bind_ok, pure, Except.pure, Except.ok.injEq] at h
      obtain ⟨b, hb, ys2, hys2, hcons⟩ := h
      subst hcons
      rcases List.mem_cons.mp hy with hy | hy
      · exact ⟨x, List.mem_cons_self x xs, hy ▸ hb⟩
      · obtain ⟨x2, hx2, hfx2⟩ := ih hys2 y hy
        exact ⟨x2, List.mem_cons_of_mem x hx2, hfx2⟩

theorem mapM_all_ok {α β : Type} {f : α → Except PyErr β} :
    ∀ {xs : List α}, (∀ x ∈ xs, ∃ y, f x = Except.ok y) →
      ∃ ys, xs.mapM f = Except.ok ys := by
  intro xs
  induction xs with
  | nil => exact fun _ => ⟨[], rfl⟩
  | cons x xs ih =>
      intro h
      obtain ⟨y, hy⟩ := h x (List.mem_cons_self x xs)
      obtain ⟨ys, hys⟩ := ih fun a ha => h a (List.mem_cons_of_mem x ha)
      refine ⟨y :: ys, ?_⟩
      rw [List.mapM_cons, hy, except_ok_bind, hys, except_ok_bind]
      rfl

theorem tradePnl_ok (t : Trade) : ∃ p, tradePnl t = Except.ok p := by
  unfold tradePnl
  cases t.current_price with
  | none => exact ⟨0, rfl⟩
  | some cp =>
      cases t.entry_price with
      | none => exact ⟨0, rfl⟩
      | some ep =>
          dsimp only
          by_cases hz : cp ≠ 0 ∧ ep ≠ 0
          · rw [if_pos hz]
            by_cases hd : t.direction = TradeDirection.YES
            · rw [if_pos hd]
              exact ⟨(cp - ep) * t.amount / ep, by unfold pyDiv; rw [if_neg hz.2]⟩
            · rw [if_neg hd]
              exact ⟨(ep - cp) * t.amount / ep, by unfold pyDiv; rw [if_neg hz.2]⟩
          · rw [if_neg hz]
            exact ⟨0, rfl⟩

/-- C7: when both prices are present and positive (the documented domain
`(0, 1]`), a YES trade's pnl is `(current - entry) * amount / entry` and a NO
trade's is `(entry - current) * amount / entry`; a missing price makes the
pnl 0; every pnl the portfolio view reports comes from `tradePnl` of an
ACTIVE trade and `total_pnl` is exactly their sum; and the concrete YES trade
with amount 100, entry 0.40, current 0.60 has pnl 50. -/
theorem C7_portfolio_pnl :
    (∀ (t : Trade) (cp ep : ℚ), t.current_price = Option.some cp →
      t.entry_price = Option.some ep → 0 < cp → 0 < ep →
      tradePnl t = Except.ok (if t.direction = TradeDirection.YES
        then (cp - ep) * t.amount / ep else (ep - cp) * t.amount / ep)) ∧
    (∀ t : Trade, t.current_price = Option.none ∨ t.entry_price = Option.none →
      tradePnl t = Except.ok 0) ∧
    (∀ (st : LedgerState) (v : PortfolioView), get_portfolio st = Except.ok v →
      v.total_pnl = (v.active_trades.map (fun i => i.2)).sum ∧
      ∀ i ∈ v.active_trades,
        tradePnl i.1 = Except.ok i.2 ∧ i.1.status = TradeStatus.ACTIVE) ∧
    tradePnl
      { id := 1, market_id := "m", market_question := "q"
        direction := TradeDirection.YES, amount := 100
        entry_price := Option.some (2/5), current_price := Option.some (3/5)
        status := TradeStatus.ACTIVE } = Except.ok 50 := by
  refine ⟨?_, ?_, ?_, ?_⟩
  · intro t cp ep hcp hep hcp0 hep0
    unfold tradePnl
    rw [hcp, hep]
    dsimp only
    rw [if_pos ⟨ne_of_gt hcp0, ne_of_gt hep0⟩]
    by_cases hd : t.direction = TradeDirection.YES
    · rw [if_pos hd, if_pos hd]
      unfold pyDiv
      rw [if_neg (ne_of_gt hep0)]
    · rw [if_neg hd, if_neg hd]
      unfold pyDiv
      rw [if_neg (ne_of_gt hep0)]
  · intro t h
    unfold tradePnl
    rcases h with h | h
    · rw [h]
    · rw [h]
      cases t.current_price <;> rfl
  · intro st v hv
    unfold get_portfolio at hv
    cases hport : st.portfolio with
    | none => rw [hport] at hv; exact absurd hv (by simp)
    | some b =>
        rw [hport] at hv
        dsimp only at hv
        cases hm : (st.trades.filter
            (fun t => decide (t.status = TradeStatus.ACTIVE))).mapM
            (fun t => (tradePnl t).map (fun p => (t, p))) with
        | error e => rw [hm] at hv; exact absurd hv (by simp)
        | ok infos =>
            rw [hm] at hv
            simp only [Except.ok.injEq] at hv
            subst hv
            refine ⟨rfl, ?_⟩
            intro i hi
            obtain ⟨x, hxmem, hfx⟩ := mapM_ok_mem hm i hi
            have hstat : x.status = TradeStatus.ACTIVE := by
              have := List.of_mem_filter hxmem
              simpa using this
            obtain ⟨p, hp⟩ := tradePnl_ok x
            rw [hp] at hfx
            simp only [Except.map, Except.ok.injEq] at hfx
            rcases hfx with ⟨rfl, rfl⟩ | h
            · exact ⟨hp, hstat⟩
  · unfold tradePnl pyDiv
    norm_num

/-- Witness for C7: a trade with no current price contributes pnl 0. -/
theorem C7_portfolio_pnl_witness :
    tradePnl
      { id := 2, market_id := "m", market_question := "q"
        direction := TradeDirection.NO, amount := 25
        entry_price := Option.some (1/2), current_price := Option.none
        status := TradeStatus.ACTIVE } = Except.ok 0 :=
  C7_portfolio_pnl.2.1 _ (Or.inl rfl)

/-- C10: the PnL guard treats a present-but-zero price exactly like a missing
one (Python falsiness), so the division by `entry_price` is only ever taken
with a nonzero divisor and the portfolio computation never raises: for every
balance and every set of trades, `get_portfolio` returns a view. -/
theorem C10_zero_price_guard :
    (∀ t : Trade, t.current_price = Option.some 0 ∨ t.entry_price = Option.some 0 ∨
      t.current_price = Option.none ∨ t.entry_price = Option.none →
      tradePnl t = Except.ok 0) ∧
    (∀ (balance : ℚ) (trades : List Trade),
      ∃ v, get_portfolio { portfolio := Option.some balance, trades := trades } =
        Except.ok v) := by
  constructor
  · intro t h
    unfold tradePnl
    rcases h with h | h | h | h
    · rw [h]
      cases hep : t.entry_price with
      | none => rfl
      | some ep =>
          dsimp only
          rw [if_neg]
          intro hc
          exact hc.1 rfl
    · rw [h]
      cases hcp : t.current_price with
      | none => rfl
      | some cp =>
          dsimp only
          rw [if_neg]
          intro hc
          exact hc.2 rfl
    · rw [h]
    · rw [h]
      cases t.current_price <;> rfl
  · intro balance trades
    unfold get_portfolio
    dsimp only
    have hall : ∀ x ∈ trades.filter (fun t => decide (t.status = TradeStatus.ACTIVE)),
        ∃ y, ((tradePnl x).map (fun p => (x, p))) = Except.ok y := by
      intro x _
      obtain ⟨p, hp⟩ := tradePnl_ok x
      exact ⟨(x, p), by rw [hp]; rfl⟩
    obtain ⟨ys, hys⟩ := mapM_all_ok hall
    rw [hys]
    exact ⟨_, rfl⟩

/-- Witness for C10: a trade with entry price 0 contributes pnl 0 instead of
dividing by zero. -/
theorem C10_zero_price_guard_witness :
    tradePnl
      { id := 3, market_id := "m", market_question := "q"
        direction := TradeDirection.YES, amount := 10
        entry_price := Option.some 0, current_price := Option.some (3/5)
        status := TradeStatus.ACTIVE } = Except.ok 0 :=
  C10_zero_price_guard.1 _ (Or.inr (Or.inl rfl))

/-! ## Markets cache (C5) -/

/-- C5: for an admitted request — (a) a cache entry younger than the TTL is
returned as-is, for every possible fetch outcome (no upstream dependence),
with the cache unchanged; (b) without a fresh entry, a successful fetch is
returned and atomically replaces the cache; (c) without a fresh entry, when
the fetch fails but some (even stale) entry exists, that entry is returned
and the cache is unchanged; (d) the caller sees a failure only when the fetch
fails and no entry has ever been populated. -/
theorem C5_cache_policy {α : Type} (requests : List ℚ) (cache : MarketCache α)
    (now : ℚ) (maxReq : ℕ) (ttl : ℚ)
    (hadm : (check_rate_limit requests now maxReq 60).1 = true) :
    (∀ (d : α) (ts : ℚ), cache.data = Option.some d → cache.timestamp = Option.some ts →
      now - ts < ttl → ∀ fetch : Except Unit α,
      get_markets requests cache now maxReq ttl fetch =
        (Except.ok d, (check_rate_limit requests now maxReq 60).2, cache)) ∧
    (cache.isFresh now ttl = false → ∀ d : α,
      get_markets requests cache now maxReq ttl (Except.ok d) =
        (Except.ok d, (check_rate_limit requests now maxReq 60).2,
          { data := Option.some d, timestamp := Option.some now })) ∧
    (cache.isFresh now ttl = false → ∀ d : α, cache.data = Option.some d →
      get_markets requests cache now maxReq ttl (Except.error ()) =
        (Except.ok d, (check_rate_limit requests now maxReq 60).2, cache)) ∧
    (cache.isFresh now ttl = false → cache.data = Option.none →
      get_markets requests cache now maxReq ttl (Except.error ()) =
        (Except.error MarketsError.fetchFailed,
          (check_rate_limit requests now maxReq 60).2, cache)) := by
  refine ⟨?_, ?_, ?_, ?_⟩
  · intro d ts hd hts hfresh fetch
    simp only [get_markets, hadm, Bool.not_true, Bool.false_eq_true, if_false]
    rw [hd, hts]
    dsimp only
    rw [if_pos hfresh]
  · intro hstale d
    simp only [get_markets, hadm, Bool.not_true, Bool.false_eq_true, if_false]
    unfold MarketCache.isFresh at hstale
    cases hd : cache.data with
    | none => cases cache.timestamp <;> rfl
    | some d0 =>
        cases hts : cache.timestamp with
        | none => rfl
        | some ts =>
            rw [hd, hts] at hstale
            dsimp only at hstale
            dsimp only
            rw [if_neg (by simpa using hstale)]
  · intro hstale d hd
    simp only [get_markets, hadm, Bool.not_true, Bool.false_eq_true, if_false]
    unfold MarketCache.isFresh at hstale
    rw [hd] at hstale ⊢
    cases hts : cache.timestamp with
    | none => rfl
    | some ts =>
        rw [hts] at hstale
        dsimp only at hstale ⊢
        rw [if_neg (by simpa using hstale)]
  · intro hstale hd
    simp only [get_markets, hadm, Bool.not_true, Bool.false_eq_true, if_false]
    rw [hd]

/-- Witness for C5 at concrete inputs: with an admitted client and a fresh
one-entry cache, the cached value is returned even when the fetch would have
failed. -/
theorem C5_cache_policy_witness :
    get_markets ([] : List ℚ) ({ data := Option.some (7 : ℕ), timestamp := Option.some 0 })
        0 5 60 (Except.error ()) =
      (Except.ok 7, (check_rate_limit [] 0 5 60).2,
        { data := Option.some (7 : ℕ), timestamp := Option.some 0 }) :=
  (C5_cache_policy [] _ 0 5 60 rfl).1 7 0 rfl rfl (by norm_num) (Except.error ())

/-! ## Ranking (C8) -/

theorem insertDesc_perm (x : AnalyzedMarket) :
    ∀ l : List AnalyzedMarket, List.Perm (insertDesc x l) (x :: l) := by
  intro l
  induction l with
  | nil => exact List.Perm.refl _
  | cons y ys ih =>
      unfold insertDesc
      split
      · exact (ih.cons y).trans (List.Perm.swap x y ys)
      · exact List.Perm.refl _

theorem sortDesc_perm : ∀ l : List AnalyzedMarket, List.Perm (sortDesc l) l := by
  intro l
  induction l with
  | nil => exact List.Perm.refl _
  | cons x xs ih =>
      unfold sortDesc
      exact (insertDesc_perm x (sortDesc xs)).trans (ih.cons x)

theorem insertDesc_sorted (x : AnalyzedMarket) :
    ∀ {l : List AnalyzedMarket},
      List.Sorted (fun a b => b.opportunity_score ≤ a.opportunity_score) l →
      List.Sorted (fun a b => b.opportunity_score ≤ a.opportunity_score) (insertDesc x l) := by
  intro l
  induction l with
  | nil => intro _; exact List.sorted_singleton x
  | cons y ys ih =>
      intro h
      rw [List.sorted_cons] at h
      unfold insertDesc
      split
      · next hlt =>
          rw [List.sorted_cons]
          refine ⟨?_, ih h.2⟩
          intro z hz
          have hz2 := (insertDesc_perm x ys).mem_iff.mp hz
          rcases List.mem_cons.mp hz2 with hz2 | hz2
          · subst hz2
            exact le_of_lt hlt
          · exact h.1 z hz2
      · next hge =>
          push_neg at hge
          rw [List.sorted_cons]
          refine ⟨?_, List.sorted_cons.mpr h⟩
          intro z hz
          rcases List.mem_cons.mp hz with hz | hz
          · subst hz
            exact hge
          · exact le_trans (h.1 z hz) hge

theorem sortDesc_sorted :
    ∀ l : List AnalyzedMarket,
      List.Sorted (fun a b => b.opportunity_score ≤ a.opportunity_score) (sortDesc l) := by
  intro l
  induction l with
  | nil => exact List.sorted_nil
  | cons x xs ih =>
      unfold sortDesc
      exact insertDesc_sorted x ih

theorem insertDesc_filter_eq (x : AnalyzedMarket) (s : ℚ) (hx : x.opportunity_score = s) :
    ∀ l : List AnalyzedMarket,
      (insertDesc x l).filter (fun m => decide (m.opportunity_score = s)) =
        x :: l.filter (fun m => decide (m.opportunity_score = s)) := by
  intro l
  induction l with
  | nil => simp [insertDesc, hx]
  | cons y ys ih =>
      unfold insertDesc
      split
      · next hlt =>
          have hy : ¬ (y.opportunity_score = s) := by
            intro hc
            rw [hx] at hlt
            rw [hc] at hlt
            exact lt_irrefl s hlt
          rw [List.filter_cons_of_neg (by simpa using hy), ih,
            List.filter_cons_of_neg (by simpa using hy)]
      · rw [List.filter_cons_of_pos (by simpa using hx)]

theorem insertDesc_filter_ne (x : AnalyzedMarket) (s : ℚ) (hx : x.opportunity_score ≠ s) :
    ∀ l : List AnalyzedMarket,
      (insertDesc x l).filter (fun m => decide (m.opportunity_score = s)) =
        l.filter (fun m => decide (m.opportunity_score = s)) := by
  intro l
  induction l with
  | nil => simp [insertDesc, hx]
  | cons y ys ih =>
      unfold insertDesc
      split
      · by_cases hy : y.opportunity_score = s
        · rw [List.filter_cons_of_pos (by simpa using hy), ih,
            List.filter_cons_of_pos (by simpa using hy)]
        · rw [List.filter_cons_of_neg (by simpa using hy), ih,
            List.filter_cons_of_neg (by simpa using hy)]
      · rw [List.filter_cons_of_neg (by simpa using hx)]

theorem sortDesc_stable (s : ℚ) :
    ∀ l : List AnalyzedMarket,
      (sortDesc l).filter (fun m => decide (m.opportunity_score = s)) =
        l.filter (fun m => decide (m.opportunity_score = s)) := by
  intro l
  induction l with
  | nil => rfl
  | cons x xs ih =>
      unfold sortDesc
      by_cases hx : x.opportunity_score = s
      · rw [insertDesc_filter_eq x s hx, ih, List.filter_cons_of_pos (by simpa using hx)]
      · rw [insertDesc_filter_ne x s hx, ih, List.filter_cons_of_neg (by simpa using hx)]

/-- C8: the ranking operation returns the first `limit` entries of a list `r`
that is a permutation of the input batch, is sorted by `opportunity_score`
descending, and — stability — preserves, for every score value, the input's
relative order of the markets carrying that score (their filtered
subsequences coincide), making the ranking deterministic. -/
theorem C8_ranking (l : List AnalyzedMarket) (limit : ℕ) :
    ∃ r : List AnalyzedMarket,
      get_top_opportunities l limit = r.take limit ∧
      List.Perm r l ∧
      List.Sorted (fun a b => b.opportunity_score ≤ a.opportunity_score) r ∧
      ∀ s : ℚ, r.filter (fun m => decide (m.opportunity_score = s)) =
        l.filter (fun m => decide (m.opportunity_score = s)) :=
  ⟨sortDesc l, rfl, sortDesc_perm l, sortDesc_sorted l, fun s => sortDesc_stable s l⟩

end PolyagentSim
